import Mathlib

/-!
Verification of the Drizzle AST parsing-and-inference engine.

This file is a shallow embedding, in Lean 4, of the core parsing engine found in
`src/lib/drizzle-ast-parser.ts` (class `DrizzleASTParser`), together with proofs
about it.  The TypeScript syntax tree (ts-morph `Node`) is modelled as a tagged
variant type covering exactly the grammar productions the engine consumes; each
private method of the class becomes a Lean function of the same name, translated
clause by clause from the source.  The engine is pure and synchronous (the lone
`.then` continuation on `parseReferences` resolves before the column is ever
read, so the assignment it performs is modelled directly), so every definition
here is an executable function.

Options are modelled at their defaults (`includeComments`, `classifyEntities`,
`detectAuditColumns`, `extractRelations` all true), which is how the class
initialises them and how the CLI commands drive it.
-/

namespace DrizzleAst

/-- The subset of the TypeScript syntax tree consumed by the engine, as a tagged
variant type: identifiers, string/template/numeric/boolean literals, call
expressions, property accesses, array literals, object literals whose members
are property assignments (a property assignment carries its leading comment
ranges, which the engine reads for column documentation), arrow functions and
function expressions (the engine only ever inspects zero-parameter ones), blocks,
return statements, parenthesized expressions, and an opaque node carrying only
its source text. -/
inductive TsNode where
  | ident (name : String)
  | strLit (value : String)
  | tmplLit (value : String)
  | numLit (value : Nat)
  | boolLit (value : Bool)
  | call (callee : TsNode) (args : List TsNode)
  | propAccess (obj : TsNode) (name : String)
  | arrayLit (elements : List TsNode)
  | objLit (props : List TsNode)
  | propAssign (name : String) (leadingComments : List String) (init : TsNode)
  | arrowFun (body : TsNode)
  | funExpr (body : TsNode)
  | blockStmt (stmts : List TsNode)
  | retStmt (e : Option TsNode)
  | paren (e : TsNode)
  | rawNode (text : String)

/-- `Node.isCallExpression`. -/
def TsNode.isCall : TsNode → Bool
  | .call _ _ => true
  | _ => false

mutual

/-- `node.getText()`: the canonical rendering of a node back to source text
(whitespace-normalised; the engine only ever inspects the text through substring
and token-shape tests that are insensitive to the normalisation). -/
def TsNode.getText : TsNode → String
  | .ident n => n
  | .strLit v => "\x22" ++ v ++ "\x22"
  | .tmplLit v => "`" ++ v ++ "`"
  | .numLit v => toString v
  | .boolLit b => if b then ("true") else ("false")
  | .call c args => c.getText ++ "(" ++ String.intercalate (", ") (getTextList args) ++ ")"
  | .propAccess o n => o.getText ++ "." ++ n
  | .arrayLit es => "[" ++ String.intercalate (", ") (getTextList es) ++ "]"
  | .objLit ps => "\x7b " ++ String.intercalate (", ") (getTextList ps) ++ " \x7d"
  | .propAssign n _ i => n ++ ": " ++ i.getText
  | .arrowFun b => "() => " ++ b.getText
  | .funExpr b => "function () \x7b return " ++ b.getText ++ " \x7d"
  | .blockStmt ss => "\x7b " ++ String.intercalate ("; ") (getTextList ss) ++ " \x7d"
  | .retStmt e =>
    match e with
    | some x => "return " ++ x.getText
    | none => "return"
  | .paren e => "(" ++ e.getText ++ ")"
  | .rawNode t => t

/-- Text of every node of a list, in order. -/
def getTextList : List TsNode → List String
  | [] => []
  | n :: ns => n.getText :: getTextList ns

end

/-- An exported-or-not top-level variable declaration: its declared identifier,
the leading comment ranges of its enclosing variable statement and of the
declaration node itself (the two places `extractComments` looks), whether it
carries the `export` keyword, and its initializer when present. -/
structure VarDecl where
  name : String
  stmtComments : List String
  declComments : List String
  exported : Bool
  init : Option TsNode

/-! ## Data model (`EnhancedEntityInfo` and friends) -/

/-- `EnhancedColumnInfo.references`: the referenced table identifier and column
name recovered from a `.references(() => table.column)` modifier. -/
structure ColumnRef where
  table : String
  column : String
  deriving Repr, DecidableEq

/-- `AuditColumnInfo`. -/
structure AuditColumns where
  createdAt : Option String := none
  updatedAt : Option String := none
  deletedAt : Option String := none
  version : Option String := none
  deriving Repr, DecidableEq

/-- `EnhancedColumnInfo`.  Numeric refinements are natural numbers (the source
only ever stores numeric literals from `length`/`precision`/`scale` options). -/
structure Column where
  name : String
  type : String
  nullable : Bool
  defaultValue : Option String := none
  primaryKey : Bool
  unique : Bool
  length : Option Nat := none
  precision : Option Nat := none
  scale : Option Nat := none
  enumValues : Option (List String) := none
  references : Option ColumnRef := none
  comments : Option String := none
  deriving Repr, DecidableEq

/-- `EnhancedRelationInfo`.  The `type` field holds one of the four cardinality
strings of the source union. -/
structure Relation where
  name : String
  type : String
  relatedTable : String
  fields : Option (List String) := none
  references : Option (List String) := none
  relationName : Option String := none
  isSelfReferencing : Bool := false
  finalTarget : Option String := none
  junctionTable : Option String := none
  deriving Repr, DecidableEq

/-- `EnhancedForeignKeyInfo` (never populated by the engine). -/
structure ForeignKey where
  columns : List String
  refTable : String
  refColumns : List String
  deriving Repr, DecidableEq

/-- `EnhancedIndexInfo` (never populated by the engine). -/
structure IndexInfo where
  name : String
  columns : List String
  unique : Bool
  deriving Repr, DecidableEq

/-- `EnhancedCheckInfo` (never populated by the engine). -/
structure CheckInfo where
  name : String
  expression : String
  columns : List String
  deriving Repr, DecidableEq

/-- `EnhancedEntityInfo`. -/
structure Entity where
  name : String
  tableName : String
  columns : List Column
  primaryKeys : List String
  foreignKeys : List ForeignKey
  indexes : List IndexInfo
  checks : List CheckInfo
  relations : Option (List Relation) := none
  comments : Option String := none
  entityType : Option String := none
  auditColumns : Option AuditColumns := none
  deriving Repr, DecidableEq

/-- The entity-type string the source uses for junction tables. -/
def junctionType : String := "transactional-many-to-many"

/-! ## String helpers

The source leans on JavaScript string methods (`includes`, one-shot `replace`,
regular expressions); these are the corresponding character-list functions. -/

/-- JavaScript `\w` word characters: ASCII letters, digits, underscore. -/
def isWordChar (c : Char) : Bool := c.isAlphanum || c == '_'

/-- Whether `pat` occurs at the head of `l`. -/
def frontMatches : List Char → List Char → Bool
  | [], _ => true
  | _ :: _, [] => false
  | p :: ps, c :: cs => p == c && frontMatches ps cs

/-- Whether `pat` occurs anywhere in `l` (JavaScript `String.includes`). -/
def listHasSub (pat : List Char) : List Char → Bool
  | [] => frontMatches pat []
  | c :: cs => frontMatches pat (c :: cs) || listHasSub pat cs

/-- JavaScript `s.includes(pat)`. -/
def containsSub (s pat : String) : Bool := listHasSub pat.data s.data

/-- JavaScript `s.replace(pat, repl)` with a plain-string pattern: replaces the
first occurrence only. -/
def replaceFirstAux (pat repl : List Char) : List Char → List Char
  | [] => []
  | c :: cs =>
    if frontMatches pat (c :: cs) then repl ++ (c :: cs).drop pat.length
    else c :: replaceFirstAux pat repl cs

/-- JavaScript `s.replace(pat, repl)` (first occurrence). -/
def replaceFirstSub (s pat repl : String) : String :=
  String.mk (replaceFirstAux pat.data repl.data s.data)

/-- JavaScript `s.toLowerCase()` (character-wise; the engine's names are
ASCII). -/
def strToLower (s : String) : String := String.mk (s.data.map Char.toLower)

/-- `s.startsWith(pat)`. -/
def strStartsWith (s pat : String) : Bool := frontMatches pat.data s.data

/-- `s.endsWith(pat)`. -/
def strEndsWith (s pat : String) : Bool := frontMatches pat.data.reverse s.data.reverse

/-- Accumulator loop for `s.split("\n")`. -/
def splitLinesAux (cur : List Char) : List Char → List String
  | [] => [String.mk cur.reverse]
  | c :: cs =>
    if c == '\n' then String.mk cur.reverse :: splitLinesAux [] cs
    else splitLinesAux (c :: cur) cs

/-- JavaScript `s.split("\n")` (empty segments kept). -/
def splitLines (s : String) : List String := splitLinesAux [] s.data

/-- JavaScript `s.trim()`. -/
def strTrim (s : String) : String :=
  String.mk
    (((s.data.dropWhile Char.isWhitespace).reverse.dropWhile Char.isWhitespace).reverse)

/-! ## Comment extraction (`extractComments`) -/

/-- The global replace `text.replace(/\/\*\*|\*\//g, "")` of the JSDoc branch:
scan left to right, at each position removing `/**` first, else `*/`, else
keeping the character. -/
def stripJsdocMarks : List Char → List Char
  | '/' :: '*' :: '*' :: cs => stripJsdocMarks cs
  | '*' :: '/' :: cs => stripJsdocMarks cs
  | c :: cs => c :: stripJsdocMarks cs
  | [] => []

/-- The global replace `text.replace(/\/\*|\*\//g, "")` of the block branch. -/
def stripBlockMarks : List Char → List Char
  | '/' :: '*' :: cs => stripBlockMarks cs
  | '*' :: '/' :: cs => stripBlockMarks cs
  | c :: cs => c :: stripBlockMarks cs
  | [] => []

/-- The global replace `text.replace(/\/\//g, "")` of the line-comment branch. -/
def stripSlashes : List Char → List Char
  | '/' :: '/' :: cs => stripSlashes cs
  | c :: cs => c :: stripSlashes cs
  | [] => []

/-- Per-line `line.replace(/^\s*\*\s?/, "")`: leading whitespace, a star, and at
most one following whitespace are removed; a line with no star after its leading
whitespace does not match and is left unchanged. -/
def stripStarJsdoc (line : List Char) : List Char :=
  match line.dropWhile Char.isWhitespace with
  | '*' :: c :: cs => if c.isWhitespace then cs else c :: cs
  | '*' :: [] => []
  | _ => line

/-- Per-line `line.replace(/^\s*\*?\s?/, "")`: like `stripStarJsdoc` but the
star is optional, so the match always succeeds and leading whitespace is always
consumed. -/
def stripStarBlock (line : List Char) : List Char :=
  match line.dropWhile Char.isWhitespace with
  | '*' :: c :: cs => if c.isWhitespace then cs else c :: cs
  | '*' :: [] => []
  | rest => rest

/-- `while (processedLines[0] === '') shift()`. -/
def dropLeadingEmpties : List String → List String
  | "" :: rest => dropLeadingEmpties rest
  | l => l

/-- `while (processedLines[last] === '') pop()`. -/
def dropTrailingEmpties (ls : List String) : List String :=
  (dropLeadingEmpties ls.reverse).reverse

/-- `currentParagraph.join(' ')`. -/
def joinParagraph (ls : List String) : String := String.intercalate (" ") ls

/-- The paragraph-grouping loop: consecutive non-empty lines accumulate into one
paragraph; an empty line closes the current paragraph (if non-empty); a trailing
open paragraph is flushed at the end. -/
def groupParagraphs (ls : List String) : List String :=
  let st := ls.foldl
    (fun (acc : List String × List String) line =>
      if line == ("") then
        (match acc.2 with
         | [] => (acc.1, [])
         | cur => (acc.1 ++ [joinParagraph cur], []))
      else (acc.1, acc.2 ++ [line]))
    ([], [])
  match st.2 with
  | [] => st.1
  | cur => st.1 ++ [joinParagraph cur]

/-- Normalisation of one comment range's text: delimiter stripping keyed on the
`/**` / `/*` / `//` shape, per-line marker stripping, trimming, dropping
leading/trailing blank lines, paragraph regrouping, and a `\n` join — the body
of the `.map` inside `extractComments`. -/
def normalizeComment (text : String) : String :=
  let lines : List String :=
    if strStartsWith text ("/**") then
      (splitLines (String.mk (stripJsdocMarks text.data))).map
        (fun l => String.mk (stripStarJsdoc l.data))
    else if strStartsWith text ("/*") then
      (splitLines (String.mk (stripBlockMarks text.data))).map
        (fun l => String.mk (stripStarBlock l.data))
    else
      [String.mk (stripSlashes text.data)]
  let processed := lines.map strTrim
  let processed := dropTrailingEmpties (dropLeadingEmpties processed)
  if processed.isEmpty then ("")
  else String.intercalate ("\n") (groupParagraphs processed)

/-- `extractComments(node)`, as a function of the node's leading comment ranges:
`undefined` when there are none, otherwise the non-empty normalisations joined
with `\n` (note: when every range normalises to the empty string this is
`some ""`, not `none`). -/
def extractComments (ranges : List String) : Option String :=
  if ranges.isEmpty then none
  else some (String.intercalate ("\n")
    (((ranges.map normalizeComment)).filter (fun c => c.length > 0)))

/-- JavaScript truthiness of the `string | undefined` comment results: `none`
and `some ""` are falsy. -/
def strTruthy : Option String → Bool
  | some s => s != ("")
  | none => false

/-! ## Literal extraction helpers -/

/-- `extractStringValue`: the literal value of a string or no-substitution
template literal, else `null`. -/
def extractStringValue : TsNode → Option String
  | .strLit v => some v
  | .tmplLit v => some v
  | _ => none

/-- `extractNumericValue`: the value of a numeric literal, else `undefined`. -/
def extractNumericValue : TsNode → Option Nat
  | .numLit v => some v
  | _ => none

/-- `extractValue`: literal values rendered as text; every other node falls back
to its source text, so the result is always a string. -/
def extractValue (n : TsNode) : String :=
  match n with
  | .strLit v => v
  | .numLit v => toString v
  | .boolLit _ => n.getText
  | .ident _ => n.getText
  | _ => n.getText

/-! ## Column extraction -/

/-- One property of the type-options object inside `parseTypeOptions`: the
recognised keys overwrite the corresponding optional fields (`length` etc. are
assigned the extraction result even when it is `undefined`); an empty property
name is skipped by the `!propName` guard. -/
def applyTypeOption (col : Column) (propName : String) (value : TsNode) : Column :=
  if propName == ("") then col
  else if propName == ("length") then { col with length := extractNumericValue value }
  else if propName == ("precision") then { col with precision := extractNumericValue value }
  else if propName == ("scale") then { col with scale := extractNumericValue value }
  else if propName == ("enum") then
    match value with
    | .arrayLit els =>
      { col with enumValues := some ((els.map extractStringValue).filterMap id) }
    | _ => col
  else col

/-- `parseTypeOptions`: walk the options object's property assignments in
order. -/
def parseTypeOptions (props : List TsNode) (col : Column) : Column :=
  props.foldl
    (fun c p =>
      match p with
      | .propAssign n _ v => applyTypeOption c n v
      | _ => c)
    col

/-- `parseColumnType`, applied (as in the source) to the column entry's full
initializer call: the base type is read from that call's callee — a plain
identifier or the final name of a property access — and when the call has a
second argument that is an object literal, it is read as type options. -/
def parseColumnType (callee : TsNode) (args : List TsNode) (col : Column) : Column :=
  let col :=
    match callee with
    | .ident n => { col with type := n }
    | .propAccess _ n => { col with type := n }
    | _ => col
  match args with
  | _ :: optionsArg :: _ =>
    match optionsArg with
    | .objLit props => parseTypeOptions props col
    | _ => col
  | _ => col

/-- `parseReferences`: the single argument must be an arrow function whose body
is a property access on a plain identifier; any other shape yields nothing. -/
def parseReferences (args : List TsNode) : Option ColumnRef :=
  match args with
  | [] => none
  | a :: _ =>
    match a with
    | .arrowFun body =>
      match body with
      | .propAccess (.ident obj) pname => some ⟨obj, pname⟩
      | _ => none
    | _ => none

/-- `getMethodName`: the final name of the call's callee when that callee is a
property access, else `undefined`. -/
def getMethodName : TsNode → Option String
  | .call (.propAccess _ n) _ => some n
  | _ => none

/-- The switch body of `parseMethodChain` for one method name. -/
def applyMethod (m : String) (args : List TsNode) (col : Column) : Column :=
  if m == ("notNull") then { col with nullable := false }
  else if m == ("primaryKey") then { col with primaryKey := true }
  else if m == ("unique") then { col with unique := true }
  else if m == ("default") then
    match args with
    | a :: _ => { col with defaultValue := some (extractValue a) }
    | [] => col
  else if m == ("defaultNow") then { col with defaultValue := some ("NOW()") }
  else if m == ("references") then
    match parseReferences args with
    | some r => { col with references := some r }
    | none => col
  else col

/-- `parseMethodChain`: read the invoked member name of the current call and
apply its effect; then descend into the call's callee — but only when that
callee is itself a call expression.  For an ordinary method chain the callee is
a property access, so the walk stops after the outermost call; when the callee
is not a property access at all (`getMethodName` yields `undefined`) the walk
returns immediately. -/
def parseMethodChain : TsNode → Column → Column
  | .call callee args, col =>
    match getMethodName (.call callee args) with
    | none => col
    | some m =>
      let col := applyMethod m args col
      if callee.isCall then parseMethodChain callee col else col
  | _, col => col

/-- `parseColumn` for one property assignment of the column map: an empty name
or a non-call initializer yields nothing; otherwise the defaults
(`type="unknown"`, nullable, no keys) are refined by `parseColumnType` and
`parseMethodChain` (both applied to the full initializer), and the entry's
leading comments are attached. -/
def parseColumn (name : String) (comments : List String) (init : TsNode) : Option Column :=
  if name == ("") then none
  else
    match init with
    | .call callee args =>
      let col : Column :=
        { name := name, type := "unknown", nullable := true, primaryKey := false,
          unique := false }
      let col := parseColumnType callee args col
      let col := parseMethodChain (.call callee args) col
      some { col with comments := extractComments comments }
    | _ => none

/-- `parseColumns`: every property of the column map that is a property
assignment and parses to a column, in order. -/
def parseColumns (props : List TsNode) : List Column :=
  props.filterMap
    (fun p =>
      match p with
      | .propAssign n cs i => parseColumn n cs i
      | _ => none)

/-! ## Entity classification and audit columns -/

/-- `classifyEntity`: the ordered decision list over the (possibly still empty)
`primaryKeys` field of the entity as handed in. -/
def classifyEntity (e : Entity) : String :=
  let name := strToLower e.name
  let tableName := strToLower e.tableName
  let foreignKeyCount := (e.columns.filter (fun c => c.references.isSome)).length
  let hasJunctionPattern :=
    containsSub name ("to") || containsSub name ("_to_") ||
    containsSub tableName ("_to_") || containsSub tableName ("to")
  let idColumns := e.columns.filter
    (fun c => strEndsWith (strToLower c.name) ("id") && strToLower c.name != ("id"))
  if (hasJunctionPattern || idColumns.length ≥ 2) && e.columns.length ≤ 6 &&
      e.primaryKeys.length == 0 then
    junctionType
  else if foreignKeyCount ≥ 2 then ("association")
  else if containsSub name ("log") || containsSub name ("audit") ||
      containsSub name ("history") then ("audit")
  else
    let hasOnlyIdAndName := e.columns.length ≤ 4 &&
      e.columns.any (fun c => containsSub c.name ("name") || containsSub c.name ("title"))
    if hasOnlyIdAndName || containsSub name ("type") || containsSub name ("status") ||
        containsSub name ("category") then ("reference")
    else ("transactional")

/-- `detectAuditColumns`: the if/else-if cascade over lowercased column names;
later matches for the same role overwrite earlier ones. -/
def detectAuditColumns (columns : List Column) : AuditColumns :=
  columns.foldl
    (fun audit col =>
      let name := strToLower col.name
      if containsSub name ("created") && containsSub name ("at") then
        { audit with createdAt := some col.name }
      else if containsSub name ("updated") && containsSub name ("at") then
        { audit with updatedAt := some col.name }
      else if containsSub name ("deleted") && containsSub name ("at") then
        { audit with deletedAt := some col.name }
      else if name == ("version") || name == ("_version") then
        { audit with version := some col.name }
      else audit)
    {}

/-! ## Table declarations -/

/-- `isTableDeclaration`: the initializer is a call whose callee text contains
`Table` together with one of the three dialect markers. -/
def isTableDeclaration (d : VarDecl) : Bool :=
  match d.init with
  | some (.call callee _) =>
    let t := callee.getText
    containsSub t ("Table") &&
      (containsSub t ("pg") || containsSub t ("mysql") || containsSub t ("sqlite"))
  | _ => false

/-- `parseTableDeclaration`: requires a call initializer with at least two
arguments, a truthy string-literal table name and an object-literal column map;
builds the entity with empty key/index/check collections, attaches comments
(statement comments first, falling back to the declaration's own when the former
are falsy), classifies it — note: before `primaryKeys` is derived — detects
audit columns, and finally derives `primaryKeys` from the parsed columns. -/
def parseTableDeclaration (d : VarDecl) : Option Entity :=
  match d.init with
  | some (.call _ args) =>
    match args with
    | tableNameArg :: columnsArg :: _ =>
      match extractStringValue tableNameArg with
      | none => none
      | some tableName =>
        if tableName == ("") then none
        else
          match columnsArg with
          | .objLit props =>
            let e : Entity :=
              { name := d.name, tableName := tableName, columns := parseColumns props,
                primaryKeys := [], foreignKeys := [], indexes := [], checks := [] }
            let c1 := extractComments d.stmtComments
            let e := { e with comments := if strTruthy c1 then c1
                                          else extractComments d.declComments }
            let e := { e with entityType := some (classifyEntity e) }
            let e := { e with auditColumns := some (detectAuditColumns e.columns) }
            let e := { e with primaryKeys :=
              (e.columns.filter (fun c => c.primaryKey)).map (fun c => c.name) }
            some e
          | _ => none
    | _ => none
  | _ => none

/-! ## Relation declarations -/

/-- `isRelationDeclaration`: a call initializer whose callee text is exactly
`relations`. -/
def isRelationDeclaration (d : VarDecl) : Bool :=
  match d.init with
  | some (.call callee _) => callee.getText == ("relations")
  | _ => false

/-- `getTableNameFromRelationDeclaration`: the regex `^(.+)Relations$` — the
declared identifier with a non-empty prefix before the `Relations` suffix. -/
def getTableNameFromRelationDeclaration (declName : String) : Option String :=
  if declName == ("") then none
  else if strEndsWith declName ("Relations") && declName.length > 9 then
    some (declName.dropRight 9)
  else none

/-- `extractTableReference`: the regex `\b(\w+)\s*$` over the argument's source
text — the trailing run of word characters (after optional trailing
whitespace), covering both `users` and `() => users`. -/
def extractTableReference (arg : TsNode) : Option String :=
  let rev := (arg.getText).data.reverse.dropWhile Char.isWhitespace
  let w := rev.takeWhile isWordChar
  if w.isEmpty then none else some (String.mk w.reverse)

/-- The first match of `\b\w+\.(\w+)\b` in a character stream: the first `.`
with a word character immediately before and after; the capture is the maximal
word run after the dot.  `prev` tracks the previous character. -/
def dotCapture : Option Char → List Char → Option String
  | prev, '.' :: c :: cs =>
    if (match prev with | some p => isWordChar p | none => false) && isWordChar c then
      some (String.mk ((c :: cs).takeWhile isWordChar))
    else dotCapture (some '.') (c :: cs)
  | _, c :: cs => dotCapture (some c) cs
  | _, [] => none

/-- `text.replace(/['"]/g, "")`. -/
def stripQuotes (s : String) : String :=
  String.mk (s.data.filter (fun c => c != '\x27' && c != '\x22'))

/-- `extractArrayValues`: for each element, the property name captured from a
`table.column` access in its text, else the text with quotes stripped; empty
results are dropped. -/
def extractArrayValues (arr : TsNode) : List String :=
  match arr with
  | .arrayLit els =>
    ((els.map
        (fun el =>
          let text := el.getText
          match dotCapture none text.data with
          | some g => g
          | none => stripQuotes text))).filter (fun v => v.length > 0)
  | _ => []

/-- `checkIfSelfReferencing`: a relation-name hint only (the source never
compares the related table to the owning entity's own table). -/
def checkIfSelfReferencing (rel : Relation) : Bool :=
  match rel.relationName with
  | some rn =>
    containsSub (strToLower rn) ("self") || containsSub (strToLower rn) ("parent") ||
      containsSub (strToLower rn) ("child")
  | none => false

/-- `refineRelationType`: the junction-marker heuristic first; then the
`originalType === "one"` comparisons exactly as written — note that every
caller passes `"one-to-one"` or `"one-to-many"` as `originalType`, never
`"one"`. -/
def refineRelationType (rel : Relation) (originalType : String) : String :=
  if containsSub (strToLower rel.relatedTable) ("to") ||
      containsSub (strToLower rel.name) ("to") then
    ("many-to-many")
  else if originalType == ("one") && rel.fields.isSome && rel.references.isSome then
    ("many-to-one")
  else if originalType == ("one") then ("one-to-one")
  else ("one-to-many")

/-- The switch over the optional configuration object's properties inside
`parseRelationProperty`. -/
def applyRelationConfig (rel : Relation) (props : List TsNode) : Relation :=
  props.foldl
    (fun r p =>
      match p with
      | .propAssign pn _ pv =>
        if pn == ("fields") then
          match pv with
          | .arrayLit _ => { r with fields := some (extractArrayValues pv) }
          | _ => r
        else if pn == ("references") then
          match pv with
          | .arrayLit _ => { r with references := some (extractArrayValues pv) }
          | _ => r
        else if pn == ("relationName") then
          match pv with
          | .strLit s => { r with relationName := some s }
          | _ => r
        else r
      | _ => r)
    rel

/-- `parseRelationProperty`: callee text `one` gives a tentative one-to-one,
`many` a tentative one-to-many, anything else drops the entry; the first
argument is resolved to the related table, the optional second object argument
supplies fields/references/relationName; then the self-reference hint and type
refinement are applied. -/
def parseRelationProperty (name : String) (init : TsNode) : Option Relation :=
  if name == ("") then none
  else
    match init with
    | .call callee args =>
      let exprText := callee.getText
      let otype? : Option String :=
        if exprText == ("one") then some ("one-to-one")
        else if exprText == ("many") then some ("one-to-many")
        else none
      match otype? with
      | none => none
      | some otype =>
        match args with
        | [] => none
        | tableArg :: rest =>
          match extractTableReference tableArg with
          | none => none
          | some relatedTable =>
            let rel : Relation :=
              { name := name, type := otype, relatedTable := relatedTable }
            let rel :=
              match rest with
              | cfg :: _ =>
                (match cfg with
                 | .objLit ps => applyRelationConfig rel ps
                 | _ => rel)
              | [] => rel
            let rel := { rel with isSelfReferencing := checkIfSelfReferencing rel }
            let rel := { rel with type := refineRelationType rel otype }
            some rel
    | _ => none

/-- `parseRelationDeclaration`: the second call argument must be a function
literal whose body yields an object literal (directly, through the first return
statement of a block, or through parentheses); its property assignments parse
into relations, and an empty result collapses to `null`. -/
def parseRelationDeclaration (d : VarDecl) : Option (List Relation) :=
  match d.init with
  | some (.call _ args) =>
    match args with
    | _ :: relationsArg :: _ =>
      let body? : Option TsNode :=
        match relationsArg with
        | .arrowFun b => some b
        | .funExpr b => some b
        | _ => none
      match body? with
      | none => none
      | some body =>
        let objectLiteral : Option (List TsNode) :=
          match body with
          | .objLit ps => some ps
          | .blockStmt stmts =>
            (match stmts.find? (fun s => match s with | .retStmt _ => true | _ => false) with
             | some (.retStmt (some (.objLit ps))) => some ps
             | _ => none)
          | .paren (.objLit ps) => some ps
          | _ => none
        match objectLiteral with
        | none => none
        | some props =>
          let relations := props.filterMap
            (fun p =>
              match p with
              | .propAssign n _ i => parseRelationProperty n i
              | _ => none)
          if relations.length > 0 then some relations else none
    | _ => none
  | _ => none

/-! ## Many-to-many resolver

The source mutates relation objects in place through a name-keyed `Map` built
once at entry.  Since entity names are never changed and no entity is inserted
or removed, `entitiesMap.get(name)` is always the last entity of the current
list with that name, and mutation through the map alias is an update of that
position; the functional embedding threads the list as explicit state. -/

/-- `entitiesMap.get(name)`: the last entity with the given name (a JavaScript
`Map` built from key/value pairs keeps the last binding for a duplicated
key). -/
def lookupLastByName (name : String) : List Entity → Option Entity
  | [] => none
  | e :: es =>
    match lookupLastByName name es with
    | some r => some r
    | none => if e.name == name then some e else none

/-- Update (through the map alias) of the last entity with the given name. -/
def updateLastByName (name : String) (f : Entity → Entity) : List Entity → List Entity
  | [] => []
  | e :: es =>
    if es.any (fun x => x.name == name) then e :: updateLastByName name f es
    else if e.name == name then f e :: es
    else e :: updateLastByName name f es

/-- The predicate of `sourceEntity.relations.find(...)`: a relation pointing at
the junction entity with type many-to-many. -/
def relMatches (jname : String) (r : Relation) : Bool :=
  r.relatedTable == jname && r.type == ("many-to-many")

/-- The pair of in-place assignments
`junctionRelation.finalTarget = otherTable; junctionRelation.junctionTable = junctionTable.name`. -/
def relWrite (jname other : String) (r : Relation) : Relation :=
  { r with finalTarget := some other, junctionTable := some jname }

/-- The effect of those assignments on the relations array: rewrite the first
matching relation. -/
def updateFirstRel (jname other : String) : List Relation → List Relation
  | [] => []
  | r :: rs =>
    if relMatches jname r then relWrite jname other r :: rs
    else r :: updateFirstRel jname other rs

/-- The entity-level effect of that assignment (only the `relations` field is
touched). -/
def writeRel (jname other : String) (e : Entity) : Entity :=
  { e with relations := e.relations.map (fun rs => updateFirstRel jname other rs) }

/-- `categoryId -> categories`, `userId -> users`: the pluralization heuristic
of the inference path. -/
def pluralize (t : String) : String :=
  if strEndsWith t ("y") then t.dropRight 1 ++ ("ies") else t ++ ("s")

/-- The related tables of a junction entity: from its columns' explicit
foreign-key references when at least two exist, else inferred from non-`id`
columns ending in `id` whose singular-stripped, pluralized name is an existing
entity name (`entitiesMap.has`). -/
def junctionRelatedTables (entityNames : List String) (j : Entity) : List String :=
  let fkRefs := j.columns.filterMap (fun c => c.references)
  if fkRefs.length ≥ 2 then fkRefs.map (fun r => r.table)
  else
    let idColumns := j.columns.filter
      (fun c => strEndsWith (strToLower c.name) ("id") && strToLower c.name != ("id"))
    idColumns.foldl
      (fun acc c =>
        let colName := strToLower c.name
        let tableName := pluralize (replaceFirstSub colName ("id") (""))
        if entityNames.contains tableName then acc ++ [tableName] else acc)
      []

/-- The body of the update loop for one `relatedTables[i]`: skip a falsy name;
look the source entity up through the map; require a relations array and a
first matching relation; require another related table; then perform the
assignment. -/
def applySource (jname : String) (relatedTables : List String) (state : List Entity)
    (sourceTableName : String) : List Entity :=
  if sourceTableName == ("") then state
  else
    match lookupLastByName sourceTableName state with
    | none => state
    | some src =>
      match src.relations with
      | none => state
      | some rels =>
        match rels.find? (fun r => relMatches jname r) with
        | none => state
        | some _ =>
          match relatedTables.find? (fun t => t != sourceTableName) with
          | none => state
          | some other => updateLastByName sourceTableName (writeRel jname other) state

/-- Processing of one junction table: compute its related tables, and when at
least two were found, run the update loop over them. -/
def resolveStep (entityNames : List String) (state : List Entity) (j : Entity) :
    List Entity :=
  let relatedTables := junctionRelatedTables entityNames j
  if relatedTables.length ≥ 2 then
    relatedTables.foldl (applySource j.name relatedTables) state
  else state

/-- `resolveManyToManyRelations`: iterate over the entities classified
`transactional-many-to-many` (the junction filter and the name map are both
computed up front; the fields they read are never mutated). -/
def resolveManyToManyRelations (entities : List Entity) : List Entity :=
  let entityNames := entities.map (fun e => e.name)
  let junctionTables := entities.filter (fun e => e.entityType == some junctionType)
  junctionTables.foldl (resolveStep entityNames) entities

/-! ## Whole-document parse (`parseFile`) -/

/-- The `relations.set(tableName, entityRelations)` accumulation; lookups read
the latest binding. -/
def lookupLastAssoc (m : List (String × List Relation)) (k : String) :
    Option (List Relation) :=
  match m.reverse.find? (fun p => p.1 == k) with
  | some p => some p.2
  | none => none

/-- `parseFile`, as a function of the document's top-level variable
declarations: parse exported table declarations in order, collect relation
declarations into the name-keyed map, attach each entity's relations, then run
the many-to-many resolver over the whole set. -/
def parseFile (decls : List VarDecl) : List Entity :=
  let exported := decls.filter (fun d => d.exported)
  let entities := (exported.filter isTableDeclaration).filterMap parseTableDeclaration
  let relDecls := exported.filter isRelationDeclaration
  let relMap := relDecls.foldl
    (fun (m : List (String × List Relation)) d =>
      match parseRelationDeclaration d with
      | some rels =>
        (match getTableNameFromRelationDeclaration d.name with
         | some tn => m ++ [(tn, rels)]
         | none => m)
      | none => m)
    []
  let entities := entities.map
    (fun e =>
      match lookupLastAssoc relMap e.name with
      | some rels => { e with relations := some rels }
      | none => e)
  resolveManyToManyRelations entities

/-! ## Analysis apparatus for the resolver

The resolver only ever *writes* the `finalTarget`/`junctionTable` decoration of
relations, and only ever *reads* fields that no write changes.  The apparatus
below makes that explicit: a `RWrite` is one pending assignment, `planSource`
is the read-only part of `applySource`, and `readDec` observes the decoration
of the relation a write targets. -/

/-- One pending decoration assignment: in the last entity named `target`, the
first relation matching `relMatches jname` receives
`finalTarget := some other, junctionTable := some jname`. -/
structure RWrite where
  target : String
  jname : String
  other : String

/-- Execute one pending assignment. -/
def applyWrite (w : RWrite) (s : List Entity) : List Entity :=
  updateLastByName w.target (writeRel w.jname w.other) s

/-- Execute a list of pending assignments, left to right. -/
def applyWrites (ws : List RWrite) (s : List Entity) : List Entity :=
  ws.foldl (fun st w => applyWrite w st) s

/-- The read-only part of `applySource`: the assignment it would perform, if
any. -/
def planSource (jname : String) (relatedTables : List String) (state : List Entity)
    (t : String) : Option RWrite :=
  if t == ("") then none
  else
    match lookupLastByName t state with
    | none => none
    | some src =>
      match src.relations with
      | none => none
      | some rels =>
        match rels.find? (fun r => relMatches jname r) with
        | none => none
        | some _ =>
          match relatedTables.find? (fun x => x != t) with
          | none => none
          | some other => some ⟨t, jname, other⟩

/-- The assignments one junction table's processing performs, all read against
the given state. -/
def stepPlan (entityNames : List String) (j : Entity) (state : List Entity) :
    List RWrite :=
  let rts := junctionRelatedTables entityNames j
  if rts.length ≥ 2 then rts.filterMap (planSource j.name rts state) else []

/-- The assignments the whole resolver performs, all read against the given
state. -/
def fullPlanAux (entityNames : List String) (js : List Entity) (state : List Entity) :
    List RWrite :=
  match js with
  | [] => []
  | j :: rest => stepPlan entityNames j state ++ fullPlanAux entityNames rest state

/-- The plan of the whole resolver, read against its input. -/
def fullPlan (es : List Entity) : List RWrite :=
  fullPlanAux (es.map (fun e => e.name))
    (es.filter (fun e => e.entityType == some junctionType)) es

/-- The location a write targets. -/
def atLoc (t j : String) (w : RWrite) : Bool := w.target == t && w.jname == j

/-- Observe the decoration `(finalTarget, junctionTable)` of the relation a
write at `(t, jname)` targets: the first relation matching `relMatches jname`
of the last entity named `t`.  `none` when no such relation exists. -/
def readDec (t jname : String) (s : List Entity) :
    Option (Option String × Option String) :=
  match lookupLastByName t s with
  | none => none
  | some e =>
    match e.relations with
    | none => none
    | some rels =>
      match rels.find? (fun r => relMatches jname r) with
      | none => none
      | some r => some (r.finalTarget, r.junctionTable)

/-- Erase the decoration of a relation. -/
def relErase (r : Relation) : Relation :=
  { r with finalTarget := none, junctionTable := none }

/-- Erase the decoration of every relation of an entity.  Everything the
resolver ever reads is invariant under `entErase`, and everything it writes is
erased by it. -/
def entErase (e : Entity) : Entity :=
  { e with relations := e.relations.map (fun rs => rs.map relErase) }

/-! ## Concrete inputs

The scenarios of the specification (and the failing inputs of the claims),
rendered as syntax trees. -/

/-- A placeholder entity for total list access. -/
def defaultEntity : Entity :=
  { name := "", tableName := "", columns := [], primaryKeys := [], foreignKeys := [],
    indexes := [], checks := [] }

/-- Scenario A's relation entry
`author: one(users, { fields: [posts.authorId], references: [users.id] })`. -/
def authorRelInit : TsNode :=
  .call (.ident "one")
    [.ident "users",
     .objLit
       [.propAssign "fields" [] (.arrayLit [.propAccess (.ident "posts") "authorId"]),
        .propAssign "references" [] (.arrayLit [.propAccess (.ident "users") "id"])]]

/-- A junction-named table declaration one of whose columns is marked
`primaryKey()`:
`export const postsToTags = pgTable("posts_to_tags", { postId: integer("post_id").primaryKey(), tagId: integer("tag_id") })`. -/
def junctionPkDecl : VarDecl :=
  { name := "postsToTags", stmtComments := [], declComments := [], exported := true,
    init := some (.call (.ident "pgTable")
      [.strLit "posts_to_tags",
       .objLit
         [.propAssign "postId" []
            (.call (.propAccess (.call (.ident "integer") [.strLit "post_id"]) "primaryKey") []),
          .propAssign "tagId" [] (.call (.ident "integer") [.strLit "tag_id"])]]) }

/-- A column chain whose not-null modifier is not the outermost call:
`integer("x").notNull().unique()`. -/
def chainNotNullInner : TsNode :=
  .call
    (.propAccess
      (.call (.propAccess (.call (.ident "integer") [.strLit "x"]) "notNull") [])
      "unique")
    []

/-- A column chain with a duplicated `default` modifier, neither occurrence
outermost: `integer("x").default(1).default(2).notNull()`. -/
def chainDoubleDefault : TsNode :=
  .call
    (.propAccess
      (.call
        (.propAccess
          (.call (.propAccess (.call (.ident "integer") [.strLit "x"]) "default")
            [.numLit 1])
          "default")
        [.numLit 2])
      "notNull")
    []

/-- `export const users = pgTable("users", { id: integer("id").primaryKey(), email: varchar("email") })`. -/
def usersDecl : VarDecl :=
  { name := "users", stmtComments := [], declComments := [], exported := true,
    init := some (.call (.ident "pgTable")
      [.strLit "users",
       .objLit
         [.propAssign "id" []
            (.call (.propAccess (.call (.ident "integer") [.strLit "id"]) "primaryKey") []),
          .propAssign "email" [] (.call (.ident "varchar") [.strLit "email"])]]) }

/-- Scenario B: `posts` table. -/
def sbPosts : VarDecl :=
  { name := "posts", stmtComments := [], declComments := [], exported := true,
    init := some (.call (.ident "pgTable")
      [.strLit "posts",
       .objLit
         [.propAssign "id" []
            (.call (.propAccess (.call (.ident "integer") [.strLit "id"]) "primaryKey") [])]]) }

/-- Scenario B: `tags` table. -/
def sbTags : VarDecl :=
  { name := "tags", stmtComments := [], declComments := [], exported := true,
    init := some (.call (.ident "pgTable")
      [.strLit "tags",
       .objLit
         [.propAssign "id" []
            (.call (.propAccess (.call (.ident "integer") [.strLit "id"]) "primaryKey") [])]]) }

/-- Scenario B: the junction table `postsToTags` with `postId` referencing
`posts.id` and `tagId` referencing `tags.id`, no primary key, two columns. -/
def sbJunction : VarDecl :=
  { name := "postsToTags", stmtComments := [], declComments := [], exported := true,
    init := some (.call (.ident "pgTable")
      [.strLit "posts_to_tags",
       .objLit
         [.propAssign "postId" []
            (.call (.propAccess (.call (.ident "integer") [.strLit "post_id"]) "references")
              [.arrowFun (.propAccess (.ident "posts") "id")]),
          .propAssign "tagId" []
            (.call (.propAccess (.call (.ident "integer") [.strLit "tag_id"]) "references")
              [.arrowFun (.propAccess (.ident "tags") "id")])]]) }

/-- Scenario B: `postsRelations` exposing `postsToTags: many(postsToTags)`. -/
def sbPostsRel : VarDecl :=
  { name := "postsRelations", stmtComments := [], declComments := [], exported := true,
    init := some (.call (.ident "relations")
      [.ident "posts",
       .arrowFun (.objLit
         [.propAssign "postsToTags" [] (.call (.ident "many") [.ident "postsToTags"])])]) }

/-- Scenario B: `tagsRelations` exposing `postsToTags: many(postsToTags)`. -/
def sbTagsRel : VarDecl :=
  { name := "tagsRelations", stmtComments := [], declComments := [], exported := true,
    init := some (.call (.ident "relations")
      [.ident "tags",
       .arrowFun (.objLit
         [.propAssign "postsToTags" [] (.call (.ident "many") [.ident "postsToTags"])])]) }

/-- Scenario B's document. -/
def scenarioB : List VarDecl := [sbPosts, sbTags, sbJunction, sbPostsRel, sbTagsRel]

/-- The parsed Scenario B entity set. -/
def scenarioBEntities : List Entity := parseFile scenarioB

/-- The junction entity of Scenario B, as parsed. -/
def sbJunctionEntity : Entity :=
  ((scenarioBEntities.filter (fun e => e.name == ("postsToTags")))).headD defaultEntity

/-- The parsed `users` entity. -/
def usersEntity : Entity := (parseTableDeclaration usersDecl).getD defaultEntity

/-- A well-formed column entry (`id: integer("id")`). -/
def c8GoodCol : TsNode := .propAssign "id" [] (.call (.ident "integer") [.strLit "id"])

/-- A column entry initializer that is not a call expression. -/
def c8BadInit : TsNode := .strLit "oops"

/-! ## Lemmas: decoration writes at the relation-list level -/

theorem relMatches_relWrite (j' j o : String) (r : Relation) :
    relMatches j' (relWrite j o r) = relMatches j' r := rfl

theorem relErase_relWrite (j o : String) (r : Relation) :
    relErase (relWrite j o r) = relErase r := rfl

theorem relMatches_relErase (j : String) (r : Relation) :
    relMatches j (relErase r) = relMatches j r := rfl

theorem relWrite_relWrite (j o o' : String) (r : Relation) :
    relWrite j o (relWrite j o' r) = relWrite j o r := rfl

theorem relMatches_eq_of_true {j : String} {r : Relation} (h : relMatches j r = true) :
    r.relatedTable = j := by
  simp only [relMatches, Bool.and_eq_true, beq_iff_eq] at h
  exact h.1

theorem relMatches_false_of_other {j j' : String} (hne : j ≠ j') {r : Relation}
    (h' : relMatches j' r = true) : relMatches j r = false := by
  cases hm : relMatches j r
  · rfl
  · exact absurd ((relMatches_eq_of_true hm).symm.trans (relMatches_eq_of_true h')) hne

theorem updateFirstRel_map_relErase (j o : String) (rs : List Relation) :
    (updateFirstRel j o rs).map relErase = rs.map relErase := by
  induction rs with
  | nil => rfl
  | cons r rs ih =>
    simp only [updateFirstRel]
    split
    · simp only [List.map_cons, relErase_relWrite]
    · simp only [List.map_cons, ih]

theorem updateFirstRel_overwrite (j o o' : String) (rs : List Relation) :
    updateFirstRel j o (updateFirstRel j o' rs) = updateFirstRel j o rs := by
  induction rs with
  | nil => rfl
  | cons r rs ih =>
    cases hm : relMatches j r
    · simp only [updateFirstRel, hm, Bool.false_eq_true, ite_false, ih]
    · simp only [updateFirstRel, hm, if_true, relMatches_relWrite, relWrite_relWrite]

theorem updateFirstRel_comm {j j' : String} (hne : j ≠ j') (o o' : String)
    (rs : List Relation) :
    updateFirstRel j o (updateFirstRel j' o' rs) =
      updateFirstRel j' o' (updateFirstRel j o rs) := by
  induction rs with
  | nil => rfl
  | cons r rs ih =>
    cases hm' : relMatches j' r
    · cases hm : relMatches j r
      · simp only [updateFirstRel, hm', hm, Bool.false_eq_true, ite_false, ih]
      · have h1 : relMatches j' (relWrite j o r) = false := by
          rw [relMatches_relWrite]; exact hm'
        simp only [updateFirstRel, hm', hm, Bool.false_eq_true, ite_false, if_true, h1]
    · have hm : relMatches j r = false := relMatches_false_of_other hne hm'
      have h2 : relMatches j (relWrite j' o' r) = false := by
        rw [relMatches_relWrite]; exact hm
      simp only [updateFirstRel, hm', hm, Bool.false_eq_true, ite_false, if_true, h2]

theorem updateFirstRel_id_of_none {j : String} {rs : List Relation}
    (h : rs.find? (fun r => relMatches j r) = none) (o : String) :
    updateFirstRel j o rs = rs := by
  induction rs with
  | nil => rfl
  | cons r rs ih =>
    rw [List.find?_cons] at h
    cases hm : relMatches j r
    · rw [hm] at h
      simp only [updateFirstRel, hm, Bool.false_eq_true, ite_false]
      rw [ih h]
    · rw [hm] at h
      simp at h

theorem relation_write_id {j o : String} {r : Relation}
    (h1 : r.finalTarget = some o) (h2 : r.junctionTable = some j) :
    relWrite j o r = r := by
  cases r
  simp only [relWrite] at *
  simp_all

theorem updateFirstRel_id_of_set {j o : String} {rs : List Relation} {r : Relation}
    (h : rs.find? (fun r => relMatches j r) = some r)
    (h1 : r.finalTarget = some o) (h2 : r.junctionTable = some j) :
    updateFirstRel j o rs = rs := by
  induction rs with
  | nil => simp at h
  | cons a rs ih =>
    rw [List.find?_cons] at h
    cases hm : relMatches j a
    · rw [hm] at h
      simp only [updateFirstRel, hm, Bool.false_eq_true, ite_false]
      rw [ih h]
    · rw [hm] at h
      simp only [Option.some.injEq] at h
      subst h
      simp only [updateFirstRel, hm, if_true]
      rw [relation_write_id h1 h2]

theorem find?_updateFirstRel_same (j o : String) (rs : List Relation) :
    (updateFirstRel j o rs).find? (fun r => relMatches j r) =
      (rs.find? (fun r => relMatches j r)).map (relWrite j o) := by
  induction rs with
  | nil => rfl
  | cons r rs ih =>
    cases hm : relMatches j r
    · simp only [updateFirstRel, hm, Bool.false_eq_true, ite_false, List.find?_cons, ih]
    · simp only [updateFirstRel, hm, if_true, List.find?_cons, relMatches_relWrite]
      rfl

theorem find?_updateFirstRel_other {j j' : String} (hne : j ≠ j') (o : String)
    (rs : List Relation) :
    (updateFirstRel j' o rs).find? (fun r => relMatches j r) =
      rs.find? (fun r => relMatches j r) := by
  induction rs with
  | nil => rfl
  | cons r rs ih =>
    cases hm' : relMatches j' r
    · simp only [updateFirstRel, hm', Bool.false_eq_true, ite_false, List.find?_cons, ih]
    · have hj : relMatches j r = false := relMatches_false_of_other hne hm'
      have hjw : relMatches j (relWrite j' o r) = false := by
        rw [relMatches_relWrite]; exact hj
      simp only [updateFirstRel, hm', if_true, List.find?_cons, hjw, hj,
        Bool.false_eq_true, ite_false]

/-! ## Lemmas: decoration writes at the entity-list level -/

theorem writeRel_name (j o : String) (e : Entity) : (writeRel j o e).name = e.name := rfl

theorem writeRel_writeRel (j o o' : String) (e : Entity) :
    writeRel j o (writeRel j o' e) = writeRel j o e := by
  cases e with
  | mk n tn cols pks fks ixs cks rels cmts et ac =>
    cases rels with
    | none => rfl
    | some rs =>
      simp only [writeRel, Option.map_some']
      simp [updateFirstRel_overwrite]

theorem writeRel_comm {j j' : String} (hne : j ≠ j') (o o' : String) (e : Entity) :
    writeRel j o (writeRel j' o' e) = writeRel j' o' (writeRel j o e) := by
  cases e with
  | mk n tn cols pks fks ixs cks rels cmts et ac =>
    cases rels with
    | none => rfl
    | some rs =>
      simp only [writeRel, Option.map_some']
      simp [updateFirstRel_comm hne]

theorem entErase_writeRel (j o : String) (e : Entity) :
    entErase (writeRel j o e) = entErase e := by
  cases e with
  | mk n tn cols pks fks ixs cks rels cmts et ac =>
    cases rels with
    | none => rfl
    | some rs =>
      simp only [entErase, writeRel, Option.map_some']
      simp [updateFirstRel_map_relErase]

theorem any_name_eq_map (n : String) (l : List Entity) :
    l.any (fun x => x.name == n) = (l.map Entity.name).any (fun x => x == n) := by
  induction l with
  | nil => rfl
  | cons e es ih => simp only [List.any_cons, List.map_cons, ih]

theorem any_name_congr {s s' : List Entity} (h : s.map Entity.name = s'.map Entity.name)
    (n : String) :
    s.any (fun x => x.name == n) = s'.any (fun x => x.name == n) := by
  rw [any_name_eq_map, any_name_eq_map, h]

theorem lookupLastByName_eq_none_of_not_any {n : String} {s : List Entity}
    (h : s.any (fun x => x.name == n) = false) : lookupLastByName n s = none := by
  induction s with
  | nil => rfl
  | cons e es ih =>
    simp only [List.any_cons, Bool.or_eq_false_iff] at h
    simp only [lookupLastByName, ih h.2, h.1, Bool.false_eq_true, ite_false]

theorem lookupLastByName_isSome_of_any {n : String} {s : List Entity}
    (h : s.any (fun x => x.name == n) = true) : (lookupLastByName n s).isSome = true := by
  induction s with
  | nil => simp at h
  | cons e es ih =>
    simp only [List.any_cons, Bool.or_eq_true] at h
    simp only [lookupLastByName]
    cases hl : lookupLastByName n es
    · rcases h with h | h
      · simp only [h, if_true, Option.isSome_some]
      · rw [hl] at ih; exact absurd (ih h) (by simp)
    · simp

theorem updateLastByName_of_not_any {n : String} {s : List Entity}
    (h : s.any (fun x => x.name == n) = false) (f : Entity → Entity) :
    updateLastByName n f s = s := by
  induction s with
  | nil => rfl
  | cons e es ih =>
    simp only [List.any_cons, Bool.or_eq_false_iff] at h
    simp only [updateLastByName, h.2, Bool.false_eq_true, ite_false, h.1, ih h.2]

theorem updateLastByName_map_name (n : String) (f : Entity → Entity)
    (hf : ∀ e, (f e).name = e.name) (s : List Entity) :
    (updateLastByName n f s).map Entity.name = s.map Entity.name := by
  induction s with
  | nil => rfl
  | cons e es ih =>
    simp only [updateLastByName]
    split
    · simp only [List.map_cons, ih]
    · split
      · simp only [List.map_cons, hf]
      · simp only [List.map_cons, ih]

theorem lookupLastByName_updateLastByName_same (n : String) (f : Entity → Entity)
    (hf : ∀ e, (f e).name = e.name) (s : List Entity) :
    lookupLastByName n (updateLastByName n f s) = (lookupLastByName n s).map f := by
  induction s with
  | nil => rfl
  | cons e es ih =>
    cases hA : es.any (fun x => x.name == n)
    · have hnone : lookupLastByName n es = none := lookupLastByName_eq_none_of_not_any hA
      cases he : e.name == n
      · simp only [updateLastByName, hA, Bool.false_eq_true, ite_false, he,
          updateLastByName_of_not_any hA, lookupLastByName, hnone]
        rfl
      · have hfe : ((f e).name == n) = true := by rw [hf]; exact he
        simp only [updateLastByName, hA, Bool.false_eq_true, ite_false, he, if_true,
          lookupLastByName, hnone, hfe]
        rfl
    · obtain ⟨r, hr⟩ := Option.isSome_iff_exists.mp (lookupLastByName_isSome_of_any hA)
      simp only [updateLastByName, hA, if_true, lookupLastByName, ih, hr]
      rfl

theorem lookupLastByName_updateLastByName_other {n t : String} (ht : t ≠ n)
    (f : Entity → Entity) (hf : ∀ e, (f e).name = e.name) (s : List Entity) :
    lookupLastByName t (updateLastByName n f s) = lookupLastByName t s := by
  induction s with
  | nil => rfl
  | cons e es ih =>
    cases hA : es.any (fun x => x.name == n)
    · cases he : e.name == n
      · simp only [updateLastByName, hA, Bool.false_eq_true, ite_false, he,
          updateLastByName_of_not_any hA]
      · have het : (e.name == t) = false := by
          cases hx : e.name == t
          · rfl
          · exact absurd ((beq_iff_eq.mp hx).symm.trans (beq_iff_eq.mp he)) ht
        have hft : ((f e).name == t) = false := by rw [hf]; exact het
        simp only [updateLastByName, hA, Bool.false_eq_true, ite_false, he, if_true,
          lookupLastByName, het, hft]
    · simp only [updateLastByName, hA, if_true, lookupLastByName, ih]

theorem updateLastByName_comp (n : String) (f g : Entity → Entity)
    (hg : ∀ e, (g e).name = e.name) (s : List Entity) :
    updateLastByName n f (updateLastByName n g s) =
      updateLastByName n (fun e => f (g e)) s := by
  induction s with
  | nil => rfl
  | cons e es ih =>
    cases hA : es.any (fun x => x.name == n)
    · cases he : e.name == n
      · simp only [updateLastByName, hA, Bool.false_eq_true, ite_false, he]
        rw [any_name_congr (updateLastByName_map_name n g hg es) n, hA]
        simp only [Bool.false_eq_true, ite_false, he, ih]
      · simp only [updateLastByName, hA, Bool.false_eq_true, ite_false, he, if_true]
        have hge : (g e).name == n := by rw [hg]; exact he
        simp only [updateLastByName, hA, Bool.false_eq_true, ite_false, hge, if_true]
    · simp only [updateLastByName, hA, if_true]
      rw [any_name_congr (updateLastByName_map_name n g hg es) n, hA]
      simp only [if_true, ih]

theorem updateLastByName_cons_later {n : String} {e : Entity} {es : List Entity}
    (h : es.any (fun x => x.name == n) = true) (f : Entity → Entity) :
    updateLastByName n f (e :: es) = e :: updateLastByName n f es := by
  simp only [updateLastByName, h, if_true]

theorem updateLastByName_cons_here {n : String} {e : Entity} {es : List Entity}
    (h : es.any (fun x => x.name == n) = false) (he : (e.name == n) = true)
    (f : Entity → Entity) :
    updateLastByName n f (e :: es) = f e :: es := by
  simp only [updateLastByName, h, Bool.false_eq_true, ite_false, he, if_true]

theorem updateLastByName_cons_skip {n : String} {e : Entity} {es : List Entity}
    (h : es.any (fun x => x.name == n) = false) (he : (e.name == n) = false)
    (f : Entity → Entity) :
    updateLastByName n f (e :: es) = e :: es := by
  simp only [updateLastByName, h, Bool.false_eq_true, ite_false, he,
    updateLastByName_of_not_any h]

theorem updateLastByName_comm {n m : String} (hnm : n ≠ m) (f g : Entity → Entity)
    (hf : ∀ e, (f e).name = e.name) (hg : ∀ e, (g e).name = e.name) (s : List Entity) :
    updateLastByName n f (updateLastByName m g s) =
      updateLastByName m g (updateLastByName n f s) := by
  induction s with
  | nil => rfl
  | cons e es ih =>
    have hAmf : ((updateLastByName n f es).any fun x => x.name == m) =
        (es.any fun x => x.name == m) :=
      any_name_congr (updateLastByName_map_name n f hf es) m
    have hAng : ((updateLastByName m g es).any fun x => x.name == n) =
        (es.any fun x => x.name == n) :=
      any_name_congr (updateLastByName_map_name m g hg es) n
    cases hAm : es.any (fun x => x.name == m) <;>
      cases hAn : es.any (fun x => x.name == n)
    · -- neither name occurs in the tail
      cases hem : e.name == m
      · cases hen : e.name == n
        · rw [updateLastByName_cons_skip hAm hem g, updateLastByName_cons_skip hAn hen f,
            updateLastByName_cons_skip hAm hem g]
        · have hfm : ((f e).name == m) = false := by rw [hf]; exact hem
          rw [updateLastByName_cons_skip hAm hem g, updateLastByName_cons_here hAn hen f,
            updateLastByName_cons_skip hAm hfm g]
      · have hen : (e.name == n) = false := by
          cases hx : e.name == n
          · rfl
          · exact absurd ((beq_iff_eq.mp hx).symm.trans (beq_iff_eq.mp hem)) hnm
        have hgn : ((g e).name == n) = false := by rw [hg]; exact hen
        rw [updateLastByName_cons_here hAm hem g, updateLastByName_cons_skip hAn hgn f,
          updateLastByName_cons_skip hAn hen f, updateLastByName_cons_here hAm hem g]
    · -- n occurs in the tail, m does not
      have hAmf' : ((updateLastByName n f es).any fun x => x.name == m) = false :=
        hAmf.trans hAm
      cases hem : e.name == m
      · rw [updateLastByName_cons_skip hAm hem g, updateLastByName_cons_later hAn f,
          updateLastByName_cons_skip hAmf' hem g]
      · rw [updateLastByName_cons_here hAm hem g, updateLastByName_cons_later hAn f,
          updateLastByName_cons_later hAn f, updateLastByName_cons_here hAmf' hem g]
    · -- m occurs in the tail, n does not
      have hAng' : ((updateLastByName m g es).any fun x => x.name == n) = false :=
        hAng.trans hAn
      cases hen : e.name == n
      · rw [updateLastByName_cons_later hAm g, updateLastByName_cons_skip hAng' hen f,
          updateLastByName_cons_skip hAn hen f, updateLastByName_cons_later hAm g]
      · rw [updateLastByName_cons_later hAm g, updateLastByName_cons_here hAng' hen f,
          updateLastByName_cons_here hAn hen f, updateLastByName_cons_later hAm g]
    · -- both occur in the tail
      have hAng' : ((updateLastByName m g es).any fun x => x.name == n) = true :=
        hAng.trans hAn
      have hAmf' : ((updateLastByName n f es).any fun x => x.name == m) = true :=
        hAmf.trans hAm
      rw [updateLastByName_cons_later hAm g, updateLastByName_cons_later hAng' f,
        updateLastByName_cons_later hAn f, updateLastByName_cons_later hAmf' g, ih]

theorem updateLastByName_id_of_fix {n : String} {f : Entity → Entity} :
    ∀ {s : List Entity}, (∀ e, lookupLastByName n s = some e → f e = e) →
      updateLastByName n f s = s := by
  intro s
  induction s with
  | nil => intro _; rfl
  | cons e es ih =>
    intro h
    cases hA : es.any (fun x => x.name == n)
    · have hnone : lookupLastByName n es = none := lookupLastByName_eq_none_of_not_any hA
      cases he : e.name == n
      · simp only [updateLastByName, hA, Bool.false_eq_true, ite_false, he,
          updateLastByName_of_not_any hA]
      · have hfe : f e = e := by
          apply h
          simp only [lookupLastByName, hnone, he, if_true]
        simp only [updateLastByName, hA, Bool.false_eq_true, ite_false, he, if_true, hfe]
    · have htail : ∀ e', lookupLastByName n es = some e' → f e' = e' := by
        intro e' he'
        apply h
        simp only [lookupLastByName, he']
      simp only [updateLastByName, hA, if_true, ih htail]

/-! ## Lemmas: pending writes -/

theorem writeRel_id_of_rels {j o : String} {e : Entity}
    (h : e.relations.map (fun rs => updateFirstRel j o rs) = e.relations) :
    writeRel j o e = e := by
  cases e with
  | mk n tn cols pks fks ixs cks rels cmts et ac =>
    simp only [writeRel]
    simp_all

theorem applyWrite_overwrite (t j o o' : String) (s : List Entity) :
    applyWrite ⟨t, j, o⟩ (applyWrite ⟨t, j, o'⟩ s) = applyWrite ⟨t, j, o⟩ s := by
  unfold applyWrite
  rw [updateLastByName_comp t _ _ (fun e => writeRel_name j o' e) s]
  have hfun : (fun e => writeRel j o (writeRel j o' e)) = writeRel j o :=
    funext (fun e => writeRel_writeRel j o o' e)
  rw [hfun]

theorem applyWrite_comm {w w' : RWrite}
    (hne : w.target ≠ w'.target ∨ w.jname ≠ w'.jname) (s : List Entity) :
    applyWrite w (applyWrite w' s) = applyWrite w' (applyWrite w s) := by
  obtain ⟨t, j, o⟩ := w
  obtain ⟨t', j', o'⟩ := w'
  rcases hne with h | h
  · exact updateLastByName_comm h _ _ (fun e => writeRel_name j o e)
      (fun e => writeRel_name j' o' e) s
  · by_cases ht : t = t'
    · subst ht
      unfold applyWrite
      rw [updateLastByName_comp t _ _ (fun e => writeRel_name j' o' e) s,
        updateLastByName_comp t _ _ (fun e => writeRel_name j o e) s]
      have hfun : (fun e => writeRel j o (writeRel j' o' e)) =
          (fun e => writeRel j' o' (writeRel j o e)) :=
        funext (fun e => writeRel_comm h o o' e)
      rw [hfun]
    · exact updateLastByName_comm ht _ _ (fun e => writeRel_name j o e)
        (fun e => writeRel_name j' o' e) s

theorem readDec_applyWrite_same (t j o : String) (s : List Entity) :
    readDec t j (applyWrite ⟨t, j, o⟩ s) =
      (readDec t j s).map (fun _ => (some o, some j)) := by
  unfold readDec applyWrite
  rw [lookupLastByName_updateLastByName_same t _ (fun e => writeRel_name j o e) s]
  cases hl : lookupLastByName t s with
  | none => rfl
  | some e =>
    simp only [Option.map_some']
    cases e with
    | mk n tn cols pks fks ixs cks rels cmts et ac =>
      cases rels with
      | none => rfl
      | some rs =>
        simp only [writeRel, Option.map_some']
        rw [find?_updateFirstRel_same]
        cases hf : rs.find? (fun r => relMatches j r) with
        | none => rfl
        | some r => simp [relWrite]

theorem readDec_applyWrite_other {t j t' j' : String}
    (hne : t ≠ t' ∨ j ≠ j') (o : String) (s : List Entity) :
    readDec t j (applyWrite ⟨t', j', o⟩ s) = readDec t j s := by
  by_cases ht : t = t'
  · subst ht
    have hj : j ≠ j' := by
      rcases hne with h | h
      · exact absurd rfl h
      · exact h
    unfold readDec applyWrite
    rw [lookupLastByName_updateLastByName_same t _ (fun e => writeRel_name j' o e) s]
    cases hl : lookupLastByName t s with
    | none => rfl
    | some e =>
      simp only [Option.map_some']
      cases e with
      | mk n tn cols pks fks ixs cks rels cmts et ac =>
        cases rels with
        | none => rfl
        | some rs =>
          simp only [writeRel, Option.map_some']
          rw [find?_updateFirstRel_other hj o rs]
  · unfold readDec applyWrite
    rw [lookupLastByName_updateLastByName_other ht _ (fun e => writeRel_name j' o e) s]

theorem applyWrite_id_of_dead {t j : String} {s : List Entity}
    (h : readDec t j s = none) (o : String) : applyWrite ⟨t, j, o⟩ s = s := by
  unfold applyWrite
  apply updateLastByName_id_of_fix
  intro e he
  unfold readDec at h
  rw [he] at h
  dsimp only at h
  cases hrel : e.relations with
  | none =>
    refine writeRel_id_of_rels ?_
    rw [hrel]
    rfl
  | some rs =>
    rw [hrel] at h
    dsimp only at h
    cases hf : rs.find? (fun r => relMatches j r) with
    | none =>
      refine writeRel_id_of_rels ?_
      rw [hrel]
      simp only [Option.map_some']
      rw [updateFirstRel_id_of_none hf o]
    | some r =>
      rw [hf] at h
      simp at h

theorem applyWrite_id_of_set {t j o : String} {s : List Entity}
    (h : readDec t j s = some (some o, some j)) : applyWrite ⟨t, j, o⟩ s = s := by
  unfold applyWrite
  apply updateLastByName_id_of_fix
  intro e he
  unfold readDec at h
  rw [he] at h
  dsimp only at h
  cases hrel : e.relations with
  | none => rw [hrel] at h; simp at h
  | some rs =>
    rw [hrel] at h
    dsimp only at h
    cases hf : rs.find? (fun r => relMatches j r) with
    | none => rw [hf] at h; simp at h
    | some r =>
      rw [hf] at h
      simp only [Option.some.injEq, Prod.mk.injEq] at h
      refine writeRel_id_of_rels ?_
      rw [hrel]
      simp only [Option.map_some']
      rw [updateFirstRel_id_of_set hf h.1 h.2]

theorem map_entErase_updateLastByName (n : String) (f : Entity → Entity)
    (hf : ∀ e, entErase (f e) = entErase e) (s : List Entity) :
    (updateLastByName n f s).map entErase = s.map entErase := by
  induction s with
  | nil => rfl
  | cons e es ih =>
    simp only [updateLastByName]
    split
    · simp only [List.map_cons, ih]
    · split
      · simp only [List.map_cons, hf]
      · simp only [List.map_cons, ih]

theorem map_entErase_applyWrite (w : RWrite) (s : List Entity) :
    (applyWrite w s).map entErase = s.map entErase :=
  map_entErase_updateLastByName _ _ (fun e => entErase_writeRel w.jname w.other e) s

theorem applyWrites_cons (w : RWrite) (ws : List RWrite) (s : List Entity) :
    applyWrites (w :: ws) s = applyWrites ws (applyWrite w s) := rfl

theorem applyWrites_append (P Q : List RWrite) (s : List Entity) :
    applyWrites (P ++ Q) s = applyWrites Q (applyWrites P s) := by
  simp [applyWrites, List.foldl_append]

theorem map_entErase_applyWrites (ws : List RWrite) (s : List Entity) :
    (applyWrites ws s).map entErase = s.map entErase := by
  induction ws generalizing s with
  | nil => rfl
  | cons w ws ih => rw [applyWrites_cons, ih, map_entErase_applyWrite]

theorem map_name_of_map_entErase {s s' : List Entity}
    (h : s.map entErase = s'.map entErase) : s.map Entity.name = s'.map Entity.name := by
  have h1 : ∀ l : List Entity, l.map Entity.name = (l.map entErase).map Entity.name := by
    intro l
    rw [List.map_map]
    have hc : (Entity.name ∘ entErase) = Entity.name := funext (fun _ => rfl)
    rw [hc]
  rw [h1, h1 s', h]

theorem atLoc_true {t j : String} {w : RWrite} (h : atLoc t j w = true) :
    w.target = t ∧ w.jname = j := by
  simp only [atLoc, Bool.and_eq_true, beq_iff_eq] at h
  exact h

theorem atLoc_false {t j : String} {w : RWrite} (h : atLoc t j w = false) :
    t ≠ w.target ∨ j ≠ w.jname := by
  by_cases ht : t = w.target
  · by_cases hj : j = w.jname
    · subst ht
      subst hj
      simp [atLoc] at h
    · exact Or.inr hj
  · exact Or.inl ht

theorem applyWrites_absorb {t j : String} {Q : List RWrite}
    (hQ : Q.any (atLoc t j) = true) (o : String) (s : List Entity) :
    applyWrites Q (applyWrite ⟨t, j, o⟩ s) = applyWrites Q s := by
  induction Q generalizing s with
  | nil => simp at hQ
  | cons w Q ih =>
    rw [List.any_cons, Bool.or_eq_true] at hQ
    cases hw : atLoc t j w
    · have hQ' : Q.any (atLoc t j) = true := by
        rcases hQ with h | h
        · rw [hw] at h
          exact absurd h (by simp)
        · exact h
      rw [applyWrites_cons, applyWrites_cons]
      have hcomm : applyWrite w (applyWrite ⟨t, j, o⟩ s) =
          applyWrite ⟨t, j, o⟩ (applyWrite w s) := by
        apply applyWrite_comm
        rcases atLoc_false hw with h | h
        · exact Or.inl (fun hx => h hx.symm)
        · exact Or.inr (fun hx => h hx.symm)
      rw [hcomm, ih hQ']
    · obtain ⟨ht, hj⟩ := atLoc_true hw
      obtain ⟨wt, wj, wo⟩ := w
      simp only at ht hj
      subst ht
      subst hj
      rw [applyWrites_cons, applyWrites_cons, applyWrite_overwrite]

theorem readDec_applyWrites_of_not_any {t j : String} {Q : List RWrite}
    (hQ : Q.any (atLoc t j) = false) (s : List Entity) :
    readDec t j (applyWrites Q s) = readDec t j s := by
  induction Q generalizing s with
  | nil => rfl
  | cons w Q ih =>
    rw [List.any_cons, Bool.or_eq_false_iff] at hQ
    rw [applyWrites_cons, ih hQ.2]
    obtain ⟨wt, wj, wo⟩ := w
    apply readDec_applyWrite_other
    exact atLoc_false hQ.1

theorem applyWrites_idem (P : List RWrite) (s : List Entity) :
    applyWrites P (applyWrites P s) = applyWrites P s := by
  induction P generalizing s with
  | nil => rfl
  | cons w P ih =>
    rw [applyWrites_cons, applyWrites_cons]
    have hy : applyWrites P (applyWrites P (applyWrite w s)) =
        applyWrites P (applyWrite w s) := ih (applyWrite w s)
    obtain ⟨t, j, o⟩ := w
    cases hQ : P.any (atLoc t j)
    · cases h0 : readDec t j s with
      | none =>
        have hws : applyWrite ⟨t, j, o⟩ s = s := applyWrite_id_of_dead h0 o
        have hry : readDec t j (applyWrites P (applyWrite ⟨t, j, o⟩ s)) = none := by
          rw [readDec_applyWrites_of_not_any hQ, hws, h0]
        rw [applyWrite_id_of_dead hry o, hy]
      | some dec =>
        have h1 : readDec t j (applyWrite ⟨t, j, o⟩ s) = some (some o, some j) := by
          rw [readDec_applyWrite_same, h0]
          rfl
        have hry : readDec t j (applyWrites P (applyWrite ⟨t, j, o⟩ s)) =
            some (some o, some j) := by
          rw [readDec_applyWrites_of_not_any hQ, h1]
        rw [applyWrite_id_of_set hry, hy]
    · rw [applyWrites_absorb hQ o, hy]

/-! ## Lemmas: everything the resolver reads is invariant under its writes -/

theorem lookupLastByName_map_of_name_preserving (t : String) (f : Entity → Entity)
    (hf : ∀ e, (f e).name = e.name) (s : List Entity) :
    lookupLastByName t (s.map f) = (lookupLastByName t s).map f := by
  induction s with
  | nil => rfl
  | cons e es ih =>
    simp only [List.map_cons, lookupLastByName, ih]
    cases hl : lookupLastByName t es with
    | none =>
      have hfe : ((f e).name == t) = (e.name == t) := by rw [hf]
      cases he : e.name == t
      · rw [hfe, he]
        rfl
      · rw [hfe, he]
        rfl
    | some r => rfl

theorem find?_map_relErase (j : String) (rs : List Relation) :
    (rs.map relErase).find? (fun r => relMatches j r) =
      (rs.find? (fun r => relMatches j r)).map relErase := by
  induction rs with
  | nil => rfl
  | cons r rs ih =>
    simp only [List.map_cons, List.find?_cons, relMatches_relErase]
    cases hm : relMatches j r
    · simpa using ih
    · rfl

theorem planSource_congr {s₁ s₂ : List Entity}
    (h : s₁.map entErase = s₂.map entErase) (j : String) (rts : List String)
    (t : String) : planSource j rts s₁ t = planSource j rts s₂ t := by
  unfold planSource
  cases ht : t == ("")
  · simp only [Bool.false_eq_true, ite_false]
    have hl : (lookupLastByName t s₁).map entErase =
        (lookupLastByName t s₂).map entErase := by
      rw [← lookupLastByName_map_of_name_preserving t entErase (fun _ => rfl) s₁,
        ← lookupLastByName_map_of_name_preserving t entErase (fun _ => rfl) s₂, h]
    cases h1 : lookupLastByName t s₁ with
    | none =>
      cases h2 : lookupLastByName t s₂ with
      | none => rfl
      | some e₂ =>
        rw [h1, h2] at hl
        simp at hl
    | some e₁ =>
      cases h2 : lookupLastByName t s₂ with
      | none =>
        rw [h1, h2] at hl
        simp at hl
      | some e₂ =>
        rw [h1, h2] at hl
        simp only [Option.map_some', Option.some.injEq] at hl
        have hrels : e₁.relations.map (fun rs => rs.map relErase) =
            e₂.relations.map (fun rs => rs.map relErase) :=
          congrArg Entity.relations hl
        dsimp only
        cases hr1 : e₁.relations with
        | none =>
          cases hr2 : e₂.relations with
          | none => rfl
          | some rs₂ =>
            rw [hr1, hr2] at hrels
            simp at hrels
        | some rs₁ =>
          cases hr2 : e₂.relations with
          | none =>
            rw [hr1, hr2] at hrels
            simp at hrels
          | some rs₂ =>
            rw [hr1, hr2] at hrels
            simp only [Option.map_some', Option.some.injEq] at hrels
            have hfind : (rs₁.find? (fun r => relMatches j r)).map relErase =
                (rs₂.find? (fun r => relMatches j r)).map relErase := by
              rw [← find?_map_relErase, ← find?_map_relErase, hrels]
            dsimp only
            cases hf1 : rs₁.find? (fun r => relMatches j r) with
            | none =>
              cases hf2 : rs₂.find? (fun r => relMatches j r) with
              | none => rfl
              | some r₂ =>
                rw [hf1, hf2] at hfind
                simp at hfind
            | some r₁ =>
              cases hf2 : rs₂.find? (fun r => relMatches j r) with
              | none =>
                rw [hf1, hf2] at hfind
                simp at hfind
              | some r₂ => rfl
  · simp only [ht, if_true]

theorem planSource_applyWrite (w : RWrite) (j : String) (rts : List String)
    (s : List Entity) (t : String) :
    planSource j rts (applyWrite w s) t = planSource j rts s t :=
  planSource_congr (map_entErase_applyWrite w s) j rts t

theorem stepPlan_congr {s₁ s₂ : List Entity} (h : s₁.map entErase = s₂.map entErase)
    (names : List String) (j : Entity) : stepPlan names j s₁ = stepPlan names j s₂ := by
  have hfun : planSource j.name (junctionRelatedTables names j) s₁ =
      planSource j.name (junctionRelatedTables names j) s₂ :=
    funext (fun t => planSource_congr h j.name (junctionRelatedTables names j) t)
  simp only [stepPlan]
  rw [hfun]

theorem stepPlan_eq_of_entErase {j j' : Entity} (hj : entErase j = entErase j')
    (names : List String) (s : List Entity) : stepPlan names j s = stepPlan names j' s := by
  have hname0 := congrArg Entity.name hj
  have hcols0 := congrArg Entity.columns hj
  have hname : j.name = j'.name := hname0
  have hcols : j.columns = j'.columns := hcols0
  have h1 : junctionRelatedTables names j = junctionRelatedTables names j' := by
    unfold junctionRelatedTables
    rw [hcols]
  simp only [stepPlan, h1, hname]

theorem fullPlanAux_congr {js₁ js₂ s₁ s₂ : List Entity}
    (hjs : js₁.map entErase = js₂.map entErase)
    (hs : s₁.map entErase = s₂.map entErase) (names : List String) :
    fullPlanAux names js₁ s₁ = fullPlanAux names js₂ s₂ := by
  induction js₁ generalizing js₂ with
  | nil =>
    cases js₂ with
    | nil => rfl
    | cons j' js' => simp at hjs
  | cons j js ih =>
    cases js₂ with
    | nil => simp at hjs
    | cons j' js' =>
      simp only [List.map_cons, List.cons.injEq] at hjs
      simp only [fullPlanAux]
      rw [stepPlan_eq_of_entErase hjs.1 names s₁, stepPlan_congr hs names j', ih hjs.2]

theorem filter_junction_map_entErase {s₁ s₂ : List Entity}
    (h : s₁.map entErase = s₂.map entErase) :
    (s₁.filter (fun e => e.entityType == some junctionType)).map entErase =
      (s₂.filter (fun e => e.entityType == some junctionType)).map entErase := by
  induction s₁ generalizing s₂ with
  | nil =>
    cases s₂ with
    | nil => rfl
    | cons e' es' => simp at h
  | cons e es ih =>
    cases s₂ with
    | nil => simp at h
    | cons e' es' =>
      simp only [List.map_cons, List.cons.injEq] at h
      have htype0 := congrArg Entity.entityType h.1
      have htype : e.entityType = e'.entityType := htype0
      simp only [List.filter_cons, htype]
      cases hc : e'.entityType == some junctionType
      · simpa using ih h.2
      · simp [ih h.2, h.1]

/-! ## Lemmas: the resolver is the execution of its plan -/

theorem applySource_eq_plan (j : String) (rts : List String) (s : List Entity)
    (t : String) :
    applySource j rts s t =
      match planSource j rts s t with
      | some w => applyWrite w s
      | none => s := by
  unfold applySource planSource
  cases ht : t == ("")
  · simp only [Bool.false_eq_true, ite_false]
    cases hl : lookupLastByName t s with
    | none => rfl
    | some src =>
      dsimp only
      cases hrel : src.relations with
      | none => rfl
      | some rels =>
        dsimp only
        cases hf : rels.find? (fun r => relMatches j r) with
        | none => rfl
        | some r =>
          dsimp only
          cases ho : rts.find? (fun x => x != t) with
          | none => rfl
          | some other => rfl
  · simp only [ht, if_true]

theorem foldl_applySource_eq (j : String) (rts : List String) (ts : List String)
    (s : List Entity) :
    ts.foldl (applySource j rts) s = applyWrites (ts.filterMap (planSource j rts s)) s := by
  induction ts generalizing s with
  | nil => rfl
  | cons t ts ih =>
    simp only [List.foldl_cons, List.filterMap_cons]
    rw [applySource_eq_plan]
    cases hp : planSource j rts s t with
    | none => exact ih s
    | some w =>
      rw [ih (applyWrite w s)]
      have hfilter : ts.filterMap (planSource j rts (applyWrite w s)) =
          ts.filterMap (planSource j rts s) :=
        congrArg ts.filterMap (funext (fun t' => planSource_applyWrite w j rts s t'))
      rw [hfilter, applyWrites_cons]

theorem resolveStep_eq_plan (names : List String) (s : List Entity) (j : Entity) :
    resolveStep names s j = applyWrites (stepPlan names j s) s := by
  simp only [resolveStep, stepPlan]
  split
  · exact foldl_applySource_eq j.name _ _ s
  · rfl

theorem foldl_resolveStep_eq (names : List String) (js : List Entity) (s : List Entity) :
    js.foldl (resolveStep names) s = applyWrites (fullPlanAux names js s) s := by
  induction js generalizing s with
  | nil => rfl
  | cons j js ih =>
    simp only [List.foldl_cons, fullPlanAux]
    rw [resolveStep_eq_plan, ih (applyWrites (stepPlan names j s) s), applyWrites_append]
    congr 1
    exact fullPlanAux_congr rfl (map_entErase_applyWrites (stepPlan names j s) s) names

theorem resolve_eq_plan (es : List Entity) :
    resolveManyToManyRelations es = applyWrites (fullPlan es) es := by
  unfold resolveManyToManyRelations fullPlan
  exact foldl_resolveStep_eq _ _ es

theorem resolve_map_entErase (es : List Entity) :
    (resolveManyToManyRelations es).map entErase = es.map entErase := by
  rw [resolve_eq_plan]
  exact map_entErase_applyWrites _ es

theorem fullPlan_resolve (es : List Entity) :
    fullPlan (resolveManyToManyRelations es) = fullPlan es := by
  unfold fullPlan
  have h1 := resolve_map_entErase es
  have hnames : (resolveManyToManyRelations es).map (fun e => e.name) =
      es.map (fun e => e.name) := map_name_of_map_entErase h1
  rw [hnames]
  exact fullPlanAux_congr (filter_junction_map_entErase h1) h1 _

/-! ## Lemmas: reading the final decoration off the plan -/

theorem readDec_applyWrites_all_val {t j o : String} {P : List RWrite}
    (hex : P.any (atLoc t j) = true)
    (hval : ∀ w ∈ P, atLoc t j w = true → w.other = o)
    {s : List Entity} (hlive : (readDec t j s).isSome = true) :
    readDec t j (applyWrites P s) = some (some o, some j) := by
  induction P generalizing s with
  | nil => simp at hex
  | cons w P ih =>
    rw [List.any_cons, Bool.or_eq_true] at hex
    rw [applyWrites_cons]
    cases hw : atLoc t j w
    · have hex' : P.any (atLoc t j) = true := by
        rcases hex with h | h
        · rw [hw] at h
          exact absurd h (by simp)
        · exact h
      have hro : readDec t j (applyWrite w s) = readDec t j s := by
        obtain ⟨wt, wj, wo⟩ := w
        exact readDec_applyWrite_other (atLoc_false hw) wo s
      exact ih hex' (fun w' hw' ha => hval w' (List.mem_cons_of_mem _ hw') ha)
        (by rw [hro]; exact hlive)
    · obtain ⟨hwt, hwj⟩ := atLoc_true hw
      have hwo : w.other = o := hval w (List.mem_cons_self _ _) hw
      have hww : w = ⟨t, j, o⟩ := by
        obtain ⟨wt, wj, wo⟩ := w
        simp only at hwt hwj hwo
        rw [hwt, hwj, hwo]
      rw [hww]
      obtain ⟨d, hd⟩ := Option.isSome_iff_exists.mp hlive
      cases hP : P.any (atLoc t j)
      · rw [readDec_applyWrites_of_not_any hP, readDec_applyWrite_same, hd]
        rfl
      · apply ih hP (fun w' hw' ha => hval w' (List.mem_cons_of_mem _ hw') ha)
        rw [readDec_applyWrite_same, hd]
        rfl

theorem mem_fullPlanAux {names : List String} {js s : List Entity} {w : RWrite} :
    w ∈ fullPlanAux names js s ↔ ∃ j ∈ js, w ∈ stepPlan names j s := by
  induction js with
  | nil => simp [fullPlanAux]
  | cons j js ih =>
    simp only [fullPlanAux, List.mem_append, ih, List.mem_cons]
    constructor
    · rintro (h | ⟨j', hj', hw⟩)
      · exact ⟨j, Or.inl rfl, h⟩
      · exact ⟨j', Or.inr hj', hw⟩
    · rintro ⟨j', hj' | hj', hw⟩
      · subst hj'
        exact Or.inl hw
      · exact Or.inr ⟨j', hj', hw⟩

theorem mem_stepPlan {names : List String} {j : Entity} {s : List Entity} {w : RWrite} :
    w ∈ stepPlan names j s ↔
      2 ≤ (junctionRelatedTables names j).length ∧
        ∃ t ∈ junctionRelatedTables names j,
          planSource j.name (junctionRelatedTables names j) s t = some w := by
  simp only [stepPlan]
  split
  · rename_i h
    simp [List.mem_filterMap, h]
  · rename_i h
    simp only [List.not_mem_nil, false_iff, not_and]
    intro h2
    exact absurd h2 h

theorem planSource_eq_some {j : String} {rts : List String} {s : List Entity}
    {t : String} {w : RWrite} (h : planSource j rts s t = some w) :
    w.target = t ∧ w.jname = j ∧ rts.find? (fun x => x != t) = some w.other := by
  unfold planSource at h
  cases ht : t == ("")
  · rw [ht] at h
    simp only [Bool.false_eq_true, ite_false] at h
    cases hl : lookupLastByName t s with
    | none => rw [hl] at h; simp at h
    | some src =>
      rw [hl] at h
      dsimp only at h
      cases hrel : src.relations with
      | none => rw [hrel] at h; simp at h
      | some rels =>
        rw [hrel] at h
        dsimp only at h
        cases hf : rels.find? (fun r => relMatches j r) with
        | none => rw [hf] at h; simp at h
        | some r =>
          rw [hf] at h
          dsimp only at h
          cases ho : rts.find? (fun x => x != t) with
          | none => rw [ho] at h; simp at h
          | some other =>
            rw [ho] at h
            dsimp only at h
            cases h
            exact ⟨rfl, rfl, rfl⟩
  · rw [ht] at h
    simp at h

theorem planSource_eq_some_of (j : String) (rts : List String) (s : List Entity)
    {t other : String} (hte : (t == ("")) = false)
    (hlive : (readDec t j s).isSome = true)
    (ho : rts.find? (fun x => x != t) = some other) :
    planSource j rts s t = some ⟨t, j, other⟩ := by
  unfold planSource
  unfold readDec at hlive
  rw [hte]
  simp only [Bool.false_eq_true, ite_false]
  cases hl : lookupLastByName t s with
  | none => rw [hl] at hlive; simp at hlive
  | some src =>
    rw [hl] at hlive
    dsimp only at hlive
    dsimp only
    cases hrel : src.relations with
    | none => rw [hrel] at hlive; simp at hlive
    | some rels =>
      rw [hrel] at hlive
      dsimp only at hlive
      dsimp only
      cases hf : rels.find? (fun r => relMatches j r) with
      | none => rw [hf] at hlive; simp at hlive
      | some r =>
        dsimp only
        rw [ho]

theorem mem_of_mem_junction_filter {es : List Entity} {j : Entity}
    (h : j ∈ es.filter (fun e => e.entityType == some junctionType)) : j ∈ es :=
  List.mem_of_mem_filter h

theorem fullPlan_loc_value {es : List Entity} {j : Entity} {t other : String}
    (hnd : (es.map Entity.name).Nodup) (hj : j ∈ es)
    (ho : (junctionRelatedTables (es.map (fun e => e.name)) j).find? (fun x => x != t) =
      some other) :
    ∀ w ∈ fullPlan es, atLoc t j.name w = true → w.other = other := by
  intro w hw ha
  obtain ⟨hwt, hwj⟩ := atLoc_true ha
  unfold fullPlan at hw
  obtain ⟨j', hj', hw'⟩ := mem_fullPlanAux.mp hw
  have hj'es : j' ∈ es := mem_of_mem_junction_filter hj'
  obtain ⟨hlen', t', ht', hps⟩ := mem_stepPlan.mp hw'
  obtain ⟨hwt', hwj', hwo'⟩ := planSource_eq_some hps
  have hnames : j'.name = j.name := by rw [← hwj', hwj]
  have hjj : j' = j := List.inj_on_of_nodup_map hnd hj'es hj hnames
  subst hjj
  have htt : t' = t := by rw [← hwt', hwt]
  subst htt
  rw [ho] at hwo'
  exact (Option.some.inj hwo').symm

theorem fullPlan_mem_of {es : List Entity} {j : Entity} {t other : String}
    (hj : j ∈ es) (hjt : j.entityType = some junctionType)
    (hrts2 : 2 ≤ (junctionRelatedTables (es.map (fun e => e.name)) j).length)
    (htin : t ∈ junctionRelatedTables (es.map (fun e => e.name)) j)
    (hte : (t == ("")) = false)
    (hlive : (readDec t j.name es).isSome = true)
    (ho : (junctionRelatedTables (es.map (fun e => e.name)) j).find? (fun x => x != t) =
      some other) :
    (⟨t, j.name, other⟩ : RWrite) ∈ fullPlan es := by
  unfold fullPlan
  apply mem_fullPlanAux.mpr
  refine ⟨j, ?_, ?_⟩
  · exact List.mem_filter.mpr ⟨hj, by simp [hjt]⟩
  · exact mem_stepPlan.mpr ⟨hrts2, t, htin, planSource_eq_some_of _ _ _ hte hlive ho⟩

/-! ## Lemmas: shape of parsed entities -/

theorem parseTableDeclaration_fields {d : VarDecl} {e : Entity}
    (h : parseTableDeclaration d = some e) :
    e.primaryKeys = (e.columns.filter (fun c => c.primaryKey)).map (fun c => c.name) ∧
      e.foreignKeys = [] ∧ e.indexes = [] ∧ e.checks = [] := by
  unfold parseTableDeclaration at h
  cases hinit : d.init with
  | none => rw [hinit] at h; simp at h
  | some n =>
    rw [hinit] at h
    cases n
    case call callee args =>
      dsimp only at h
      cases args with
      | nil => simp at h
      | cons a rest =>
        cases rest with
        | nil => simp at h
        | cons b rest2 =>
          dsimp only at h
          cases hs : extractStringValue a with
          | none => rw [hs] at h; simp at h
          | some tn =>
            rw [hs] at h
            dsimp only at h
            cases htn : tn == ("")
            · rw [htn] at h
              simp only [Bool.false_eq_true, ite_false] at h
              cases b
              case objLit props =>
                dsimp only at h
                injection h with h2
                subst h2
                exact ⟨rfl, rfl, rfl, rfl⟩
              all_goals simp at h
            · rw [htn] at h
              simp at h
    all_goals simp at h

theorem parseColumn_none_of_not_call {name : String} {cs : List String} {init : TsNode}
    (h : init.isCall = false) : parseColumn name cs init = none := by
  unfold parseColumn
  cases hn : name == ("")
  · simp only [Bool.false_eq_true, ite_false]
    cases init <;> first | rfl | (simp [TsNode.isCall] at h)
  · simp [hn]

theorem parseColumns_skip {l₁ l₂ : List TsNode} {bname : String} {bcs : List String}
    {binit : TsNode} (h : binit.isCall = false) :
    parseColumns (l₁ ++ TsNode.propAssign bname bcs binit :: l₂) =
      parseColumns (l₁ ++ l₂) := by
  unfold parseColumns
  rw [List.filterMap_append, List.filterMap_append]
  simp only [List.filterMap_cons, parseColumn_none_of_not_call h]

theorem mem_updateLastByName {n : String} {f : Entity → Entity} :
    ∀ {s : List Entity} {e' : Entity}, e' ∈ updateLastByName n f s →
      e' ∈ s ∨ ∃ e ∈ s, e' = f e := by
  intro s
  induction s with
  | nil =>
    intro e' h
    exact absurd h (List.not_mem_nil _)
  | cons e es ih =>
    intro e' h
    unfold updateLastByName at h
    split at h
    · rcases List.mem_cons.mp h with h1 | h1
      · exact Or.inl (h1 ▸ List.mem_cons_self _ _)
      · rcases ih h1 with h2 | ⟨a, ha, hea⟩
        · exact Or.inl (List.mem_cons_of_mem _ h2)
        · exact Or.inr ⟨a, List.mem_cons_of_mem _ ha, hea⟩
    · split at h
      · rcases List.mem_cons.mp h with h1 | h1
        · exact Or.inr ⟨e, List.mem_cons_self _ _, h1⟩
        · exact Or.inl (List.mem_cons_of_mem _ h1)
      · rcases List.mem_cons.mp h with h1 | h1
        · exact Or.inl (h1 ▸ List.mem_cons_self _ _)
        · rcases ih h1 with h2 | ⟨a, ha, hea⟩
          · exact Or.inl (List.mem_cons_of_mem _ h2)
          · exact Or.inr ⟨a, List.mem_cons_of_mem _ ha, hea⟩

theorem applyWrites_preserves (Pr : Entity → Prop)
    (hPr : ∀ j o e, Pr e → Pr (writeRel j o e)) :
    ∀ (ws : List RWrite) (s : List Entity), (∀ e ∈ s, Pr e) →
      ∀ e ∈ applyWrites ws s, Pr e := by
  intro ws
  induction ws with
  | nil => intro s hs e he; exact hs e he
  | cons w ws ih =>
    intro s hs e he
    rw [applyWrites_cons] at he
    refine ih (applyWrite w s) ?_ e he
    intro x hx
    rcases mem_updateLastByName hx with h1 | ⟨a, ha, hxa⟩
    · exact hs x h1
    · exact hxa ▸ hPr _ _ _ (hs a ha)

theorem resolve_preserves_collections (s : List Entity)
    (hbase : ∀ e ∈ s, e.foreignKeys = [] ∧ e.indexes = [] ∧ e.checks = []) :
    ∀ e ∈ resolveManyToManyRelations s,
      e.foreignKeys = [] ∧ e.indexes = [] ∧ e.checks = [] := by
  rw [resolve_eq_plan]
  exact applyWrites_preserves _ (fun _ _ _ h => h) _ s hbase

/-! ## The claims -/

/-- C1: the claim states that a relation built from `one` with both a fields
list and a references list (and no junction marker in the related-table name or
relation key) gets type `many-to-one`; on Scenario A's
`author: one(users, { fields: [posts.authorId], references: [users.id] })` the
engine in fact produces type `one-to-many`: `refineRelationType` compares its
`originalType` parameter against `"one"`, but its only caller passes
`"one-to-one"` / `"one-to-many"`, so the reclassification branch is
unreachable and the default branch always yields `one-to-many`.  This theorem
evaluates the embedded engine at that failing input; the related table, fields
and references come out as the claim says, the type does not. -/
theorem claim_C1_author_relation_eval :
    parseRelationProperty ("author") authorRelInit =
      some { name := "author", type := "one-to-many", relatedTable := "users",
             fields := some ["authorId"], references := some ["id"],
             relationName := none, isSelfReferencing := false,
             finalTarget := none, junctionTable := none } := by rfl

/-- C2: the claim states that the many-to-many-junction classification is
assigned only when the entity's `primaryKeys` is empty, so an entity with a
primary-key column is never classified as a junction.  In the code,
`classifyEntity` is invoked *before* `primaryKeys` is derived from the columns,
so its `!entity.primaryKeys.length` test always sees the initial empty array.
This theorem evaluates the embedded pipeline at a junction-named table whose
`postId` column is marked `primaryKey()`: the final entity carries
`primaryKeys = ["postId"]` and is nevertheless classified
`transactional-many-to-many` (the code's name for the junction role). -/
theorem claim_C2_junction_despite_primary_key :
    (parseTableDeclaration junctionPkDecl).map (fun e => (e.entityType, e.primaryKeys)) =
      some (some junctionType, ["postId"]) := by rfl

/-- C3: for every entity produced by parsing a table declaration, the
`primaryKeys` field is exactly the ordered list of names of its columns whose
`primaryKey` flag is true (the last step of `parseTableDeclaration` derives it
that way from the parsed columns). -/
theorem claim_C3_primary_keys_derived {d : VarDecl} {e : Entity}
    (h : parseTableDeclaration d = some e) :
    e.primaryKeys = (e.columns.filter (fun c => c.primaryKey)).map (fun c => c.name) :=
  (parseTableDeclaration_fields h).1

/-- Witness for C3 at the concrete `users` table declaration. -/
theorem claim_C3_primary_keys_derived_witness :
    parseTableDeclaration usersDecl = some usersEntity ∧
      usersEntity.primaryKeys =
        (usersEntity.columns.filter (fun c => c.primaryKey)).map (fun c => c.name) :=
  ⟨by rfl, @claim_C3_primary_keys_derived usersDecl usersEntity (by rfl)⟩

/-- C4: for a junction-classified entity `j` whose columns carry at least two
explicit foreign-key references, the resolver takes the referenced tables (in
column order) as the related tables, and for a related table `t` whose entity
declares a many-to-many relation pointing at `j`, the first such relation ends
up with `junctionTable = j.name` and `finalTarget` equal to the first related
table different from `t`.  `readDec t j.name` observes exactly that relation
(the first `many-to-many` relation with `relatedTable = j.name` of the last
entity named `t`).  Hypotheses: entity names are distinct (declared
identifiers of one source file are), `t` is non-empty (a declared identifier),
and the related entity, its relations array, the matching relation, and
another related table all exist — the conditions the update loop checks. -/
theorem claim_C4_resolver_explicit_fk_assigns (es : List Entity) (j : Entity)
    (t other : String)
    (hnd : (es.map Entity.name).Nodup)
    (hj : j ∈ es) (hjt : j.entityType = some junctionType)
    (hfk : 2 ≤ (j.columns.filterMap (fun c => c.references)).length)
    (htin : t ∈ (j.columns.filterMap (fun c => c.references)).map (fun r => r.table))
    (hte : t ≠ "")
    (hlive : (readDec t j.name es).isSome = true)
    (ho : ((j.columns.filterMap (fun c => c.references)).map (fun r => r.table)).find?
        (fun x => x != t) = some other) :
    junctionRelatedTables (es.map (fun e => e.name)) j =
        (j.columns.filterMap (fun c => c.references)).map (fun r => r.table) ∧
      readDec t j.name (resolveManyToManyRelations es) =
        some (some other, some j.name) := by
  have hrt : junctionRelatedTables (es.map (fun e => e.name)) j =
      (j.columns.filterMap (fun c => c.references)).map (fun r => r.table) := by
    simp only [junctionRelatedTables]
    rw [if_pos hfk]
  refine ⟨hrt, ?_⟩
  have hte' : (t == ("")) = false := by
    cases hx : t == ("")
    · rfl
    · exact absurd (beq_iff_eq.mp hx) hte
  have hrts2 : 2 ≤ (junctionRelatedTables (es.map (fun e => e.name)) j).length := by
    rw [hrt, List.length_map]
    exact hfk
  have htin' : t ∈ junctionRelatedTables (es.map (fun e => e.name)) j := by
    rw [hrt]
    exact htin
  have ho' : (junctionRelatedTables (es.map (fun e => e.name)) j).find?
      (fun x => x != t) = some other := by
    rw [hrt]
    exact ho
  rw [resolve_eq_plan]
  apply readDec_applyWrites_all_val _ _ hlive
  · apply List.any_eq_true.mpr
    refine ⟨⟨t, j.name, other⟩, fullPlan_mem_of hj hjt hrts2 htin' hte' hlive ho', ?_⟩
    simp [atLoc]
  · exact fullPlan_loc_value hnd hj ho'

/-- Witness for C4: Scenario B.  The parsed set contains `posts`, `tags` and
the junction `postsToTags` whose columns reference `posts.id` and `tags.id`;
for `t = "posts"` the other related table is `"tags"`, and the relation of
`posts` pointing at the junction receives `finalTarget = "tags"` and
`junctionTable = "postsToTags"`. -/
theorem claim_C4_resolver_explicit_fk_assigns_witness :
    ((scenarioBEntities.map Entity.name).Nodup ∧
      sbJunctionEntity ∈ scenarioBEntities ∧
      sbJunctionEntity.entityType = some junctionType ∧
      2 ≤ ((sbJunctionEntity.columns.filterMap (fun c => c.references))).length ∧
      ("posts") ∈ ((sbJunctionEntity.columns.filterMap (fun c => c.references))).map
        (fun r => r.table) ∧
      ("posts") ≠ "" ∧
      (readDec ("posts") sbJunctionEntity.name scenarioBEntities).isSome = true ∧
      (((sbJunctionEntity.columns.filterMap (fun c => c.references))).map
          (fun r => r.table)).find? (fun x => x != ("posts")) = some ("tags")) ∧
    junctionRelatedTables (scenarioBEntities.map (fun e => e.name)) sbJunctionEntity =
        ((sbJunctionEntity.columns.filterMap (fun c => c.references))).map
          (fun r => r.table) ∧
      readDec ("posts") sbJunctionEntity.name
          (resolveManyToManyRelations scenarioBEntities) =
        some (some ("tags"), some sbJunctionEntity.name) :=
  ⟨⟨by decide, by decide, by decide, by decide, by decide, by decide, by decide,
     by decide⟩,
   claim_C4_resolver_explicit_fk_assigns scenarioBEntities sbJunctionEntity
     ("posts") ("tags") (by decide) (by decide) (by decide) (by decide) (by decide)
     (by decide) (by decide) (by decide)⟩

/-- C5: the Many-to-Many Resolver is idempotent — running it a second time
over the result of the first run returns the same entity list, every field of
every entity and relation included.  This holds because the resolver reads
only decoration-invariant data (entity names, columns, entity types, relation
`relatedTable`/`type` fields) and writes only constant values computed from
that data, so the second run re-performs the identical assignments. -/
theorem claim_C5_resolver_idempotent (es : List Entity) :
    resolveManyToManyRelations (resolveManyToManyRelations es) =
      resolveManyToManyRelations es := by
  rw [resolve_eq_plan (resolveManyToManyRelations es), fullPlan_resolve,
    resolve_eq_plan es, applyWrites_idem]

/-- C6: the claim states that a not-null modifier anywhere in the builder
chain makes the column non-nullable.  In the code, `parseMethodChain` descends
into the current call's callee only when that callee is itself a call
expression; for a method chain the callee is a property access, so only the
outermost modifier is ever applied.  This theorem evaluates the embedded
engine at `integer("x").notNull().unique()`: the outermost `unique()` is
applied but `nullable` stays `true`, contradicting the claim. -/
theorem claim_C6_notnull_mid_chain_ignored :
    (parseColumn ("x") [] chainNotNullInner).map (fun c => (c.nullable, c.unique)) =
      some (true, true) := by rfl

/-- C7: the claim states that when the same value-carrying modifier appears
twice, the later-in-chain occurrence wins.  Because the chain walk stops after
the outermost call (see C6), at `integer("x").default(1).default(2).notNull()`
neither `default` is processed at all and `defaultValue` remains unset, while
the claim requires `"2"`.  The outermost `notNull()` is applied, showing the
walk ran. -/
theorem claim_C7_duplicate_default_dropped :
    (parseColumn ("x") [] chainDoubleDefault).map
        (fun c => (c.defaultValue, c.nullable)) = some (none, false) := by rfl

/-- C8: a column-map entry whose value is not a call expression is silently
omitted: the column list is exactly that of the map without the entry, and the
whole table declaration parses to the very same entity (so the entity is still
produced whenever it would have been without the bad entry, and no error is
surfaced — the result type has no error channel). -/
theorem claim_C8_bad_column_entry_skipped
    (l₁ l₂ : List TsNode) (bname : String) (bcs : List String) (binit : TsNode)
    (dn : String) (sc dc : List String) (ex : Bool) (callee tnArg : TsNode)
    (rest : List TsNode) (h : binit.isCall = false) :
    parseColumns (l₁ ++ TsNode.propAssign bname bcs binit :: l₂) =
        parseColumns (l₁ ++ l₂) ∧
      parseTableDeclaration
          { name := dn, stmtComments := sc, declComments := dc, exported := ex,
            init := some (.call callee (tnArg ::
              .objLit (l₁ ++ TsNode.propAssign bname bcs binit :: l₂) :: rest)) } =
        parseTableDeclaration
          { name := dn, stmtComments := sc, declComments := dc, exported := ex,
            init := some (.call callee (tnArg :: .objLit (l₁ ++ l₂) :: rest)) } := by
  have h1 := @parseColumns_skip l₁ l₂ bname bcs binit h
  refine ⟨h1, ?_⟩
  unfold parseTableDeclaration
  dsimp only
  cases hs : extractStringValue tnArg with
  | none => rfl
  | some tn =>
    dsimp only
    cases htn : tn == ("")
    · simp only [Bool.false_eq_true, ite_false]
      rw [h1]
    · simp

/-- Witness for C8: a concrete table with one good column and one entry whose
initializer is the string literal `"oops"`. -/
theorem claim_C8_bad_column_entry_skipped_witness :
    TsNode.isCall c8BadInit = false ∧
      (parseColumns ([c8GoodCol] ++ TsNode.propAssign ("bad") [] c8BadInit :: []) =
          parseColumns ([c8GoodCol] ++ []) ∧
        parseTableDeclaration
            { name := "things", stmtComments := [], declComments := [], exported := true,
              init := some (.call (.ident "pgTable") (.strLit "things" ::
                .objLit ([c8GoodCol] ++ TsNode.propAssign ("bad") [] c8BadInit :: []) ::
                  [])) } =
          parseTableDeclaration
            { name := "things", stmtComments := [], declComments := [], exported := true,
              init := some (.call (.ident "pgTable") (.strLit "things" ::
                .objLit ([c8GoodCol] ++ []) :: [])) }) :=
  ⟨rfl, claim_C8_bad_column_entry_skipped [c8GoodCol] [] ("bad") [] c8BadInit
    ("things") [] [] true (.ident "pgTable") (.strLit "things") [] rfl⟩

/-- C9 counterexample: the claim states the Comment Extractor produces
`undefined` whenever no usable comment text exists, including when every
attached comment normalizes to empty text.  For the single comment range
`/* */`, which normalizes to the empty string, `extractComments` returns the
empty string (the `.map.filter.join` pipeline of the non-empty-ranges branch),
not `undefined`. -/
theorem claim_C9_comment_counterexample :
    normalizeComment ("/* */") = ("") ∧ extractComments [("/* */")] = some ("") ∧
      extractComments [("/* */")] ≠ none :=
  ⟨rfl, rfl, by decide⟩

/-- C9 (amended): the Comment Extractor produces `undefined` exactly when
there are no leading comment ranges; when ranges exist but every one of them
normalizes to empty text it produces the empty string instead. -/
theorem claim_C9_comment_empty_behaviour (ranges : List String) :
    (ranges = [] → extractComments ranges = none) ∧
      (ranges ≠ [] → (∀ r ∈ ranges, normalizeComment r = ("")) →
        extractComments ranges = some ("")) := by
  constructor
  · intro h
    subst h
    rfl
  · intro hne hall
    unfold extractComments
    have hemp : ranges.isEmpty = false := by
      cases ranges with
      | nil => exact absurd rfl hne
      | cons a l => rfl
    rw [hemp]
    simp only [Bool.false_eq_true, ite_false]
    have hf : ((ranges.map normalizeComment)).filter (fun c => c.length > 0) = [] := by
      rw [List.filter_eq_nil_iff]
      intro a ha
      obtain ⟨r, hr, hra⟩ := List.mem_map.mp ha
      rw [← hra, hall r hr]
      decide
    rw [hf]
    rfl

/-- Witness for the amended C9 at the concrete range list `["/* */"]`. -/
theorem claim_C9_comment_empty_behaviour_witness :
    ((["/* */"] : List String) ≠ [] ∧
      (∀ r ∈ (["/* */"] : List String), normalizeComment r = (""))) ∧
      extractComments [("/* */")] = some ("") :=
  ⟨⟨by decide, by decide⟩,
   (claim_C9_comment_empty_behaviour [("/* */")]).2 (by decide) (by decide)⟩

/-- C10: every entity returned by the whole-document parse has empty
`foreignKeys`, `indexes` and `checks`: `parseTableDeclaration` creates them
empty, attaching relations does not touch them, and the resolver writes only
relation decorations. -/
theorem claim_C10_collections_always_empty (decls : List VarDecl) :
    ∀ e ∈ parseFile decls, e.foreignKeys = [] ∧ e.indexes = [] ∧ e.checks = [] := by
  intro e he
  simp only [parseFile] at he
  refine resolve_preserves_collections _ ?_ e he
  intro x hx
  obtain ⟨y, hy, hxy⟩ := List.mem_map.mp hx
  obtain ⟨d, _, hyd⟩ := List.mem_filterMap.mp hy
  have hfields := (parseTableDeclaration_fields hyd).2
  subst hxy
  cases hl : lookupLastAssoc _ y.name with
  | none => simpa [hl] using hfields
  | some rels => simpa [hl] using hfields

/-- Witness for C10 at Scenario B's junction entity. -/
theorem claim_C10_collections_always_empty_witness :
    sbJunctionEntity ∈ parseFile scenarioB ∧
      sbJunctionEntity.foreignKeys = [] ∧ sbJunctionEntity.indexes = [] ∧
        sbJunctionEntity.checks = [] :=
  ⟨by decide,
   claim_C10_collections_always_empty scenarioB sbJunctionEntity (by decide)⟩

end DrizzleAst
